import Mathlib

/-!
# Traffic light control (src/main.cpp): embedding of the controller

The Arduino sketch keeps its state in globals (`currTime`, `prevTime`, `flag`) and in the
levels of the digital output pins.  The embedding passes that state explicitly.  Every
primitive that the sketch calls (`digitalWrite`, `delay`, `Serial.println`) is recorded in a
chronological log, and `delay` also records the pin levels that are in force while it blocks,
so that statements about "what is shown during the hold" can be made.

`unsigned long` is 32 bits wide on the target; `currTime - prevTime` is therefore computed
modulo `2 ^ 32`.
-/

namespace TrafficLight

/-! ## The sketch -/

/-- Level `HIGH` of a digital pin. -/
abbrev HIGH : Bool := true

/-- Level `LOW` of a digital pin. -/
abbrev LOW : Bool := false

/-- Pins of road 1: index 0 is the red (Stop) LED, index 1 the green (Go) LED. -/
def signal1 : Fin 2 → Nat := ![5, 6]

/-- Pins of road 2. -/
def signal2 : Fin 2 → Nat := ![7, 8]

/-- Pins of road 3. -/
def signal3 : Fin 2 → Nat := ![9, 10]

/-- Pins of road 4. -/
def signal4 : Fin 2 → Nat := ![11, 12]

/-- Time for which a green light stays on (ms). -/
def redDelay : Nat := 5000

/-- Time of the intermediate (yellow) state (ms). -/
def yellowDelay : Nat := 2000

/-- External interrupt pin of the emergency button. -/
def buttonPin : Nat := 2

/-- Built-in LED, switched on by the interrupt routine. -/
def ledPin : Nat := 13

/-- Width of `unsigned long` on the target. -/
def wordSize : Nat := 2 ^ 32

/-- Observable actions of the sketch, in the order in which they are performed. -/
inductive Event where
  | write (pin : Nat) (level : Bool)
  | delay (ms : Nat)
  | println (text : String)
  deriving DecidableEq, Repr

/-- Levels of the digital pins, by pin number. -/
abbrev Pins := Nat → Bool

/-- Globals of the sketch, the pin levels, and the record of what has been done so far. -/
structure State where
  /-- Current level of every digital pin. -/
  pins : Pins
  /-- The global `flag`, set by the interrupt routine. -/
  flag : Bool
  /-- The global `currTime`. -/
  currTime : Nat
  /-- The global `prevTime`. -/
  prevTime : Nat
  /-- Chronological record of the primitives called. -/
  log : List Event
  /-- Pin levels in force during each `delay`, oldest first. -/
  holdPins : List Pins

/-- Subtraction of two `unsigned long` values: the difference modulo `2 ^ 32`. -/
def usub (a b : Nat) : Nat := (a % wordSize + (wordSize - b % wordSize)) % wordSize

/-- The expression `currTime - prevTime` of the sketch. -/
def elapsed (s : State) : Nat := usub s.currTime s.prevTime

/-- The call `digitalWrite(pin, level)`. -/
def digitalWrite (pin : Nat) (level : Bool) (s : State) : State :=
  { s with
    pins := fun q => if q = pin then level else s.pins q
    log := s.log ++ [Event.write pin level] }

/-- The call `Serial.println(text)`. -/
def println (text : String) (s : State) : State :=
  { s with log := s.log ++ [Event.println text] }

/-- The assignment `flag = v`. -/
def setFlag (v : Bool) (s : State) : State := { s with flag := v }

/-- Interrupt service routine of the emergency button. -/
def button_ISR (s : State) : State :=
  setFlag true (digitalWrite ledPin HIGH (println "////////////Interrupt////////////////////" s))

/-- The call `delay(ms)`.  The pin levels do not change while it blocks, so they are recorded
once.  `irq` tells whether the button interrupt fires while the call blocks. -/
def delay (ms : Nat) (irq : Bool) (s : State) : State :=
  let s1 : State := { s with log := s.log ++ [Event.delay ms], holdPins := s.holdPins ++ [s.pins] }
  if irq then button_ISR s1 else s1

/-- State function `sig1`. -/
def sig1 (s : State) : State :=
  println "#1" (digitalWrite (signal4 0) HIGH (digitalWrite (signal3 0) HIGH
    (digitalWrite (signal2 0) HIGH (digitalWrite (signal1 0) LOW
      (digitalWrite (signal1 1) HIGH s)))))

/-- State function `sig2`. -/
def sig2 (s : State) : State :=
  println "#2" (digitalWrite (signal4 0) HIGH (digitalWrite (signal3 0) HIGH
    (digitalWrite (signal2 0) LOW (digitalWrite (signal2 1) HIGH
      (digitalWrite (signal1 0) HIGH s)))))

/-- State function `sig3`. -/
def sig3 (s : State) : State :=
  println "#3" (digitalWrite (signal4 0) HIGH (digitalWrite (signal3 0) LOW
    (digitalWrite (signal3 1) HIGH (digitalWrite (signal2 0) HIGH
      (digitalWrite (signal1 0) HIGH s)))))

/-- State function `sig4`. -/
def sig4 (s : State) : State :=
  println "#4" (digitalWrite (signal4 0) LOW (digitalWrite (signal4 1) HIGH
    (digitalWrite (signal3 0) HIGH (digitalWrite (signal2 0) HIGH
      (digitalWrite (signal1 0) HIGH s)))))

/-- First `if / else if` of `loop` (signal 1 and its intermediate state), lines 89-109. -/
def block1 (currwaitTime : Nat) (irq : Bool) (s : State) : State :=
  if elapsed s < currwaitTime then
    sig1 s
  else if elapsed s ≥ currwaitTime ∧ elapsed s < currwaitTime + yellowDelay then
    let s1 := if s.flag then setFlag false (delay 3000 irq (sig1 s)) else s
    println "#1 wait" (digitalWrite (signal1 1) LOW s1)
  else
    s

/-- The `if / else if` of `loop` for signal 2, 3 or 4 (lines 114-127, 132-145, 150-164): the
three copies differ only in the state function `sigK`, the pin table `signalK` and the text
printed. -/
def phaseBlock (prevwaitTime currwaitTime : Nat) (sigK : State → State) (signalK : Fin 2 → Nat)
    (text : String) (irq : Bool) (s : State) : State :=
  if elapsed s > prevwaitTime ∧ elapsed s ≤ currwaitTime then
    sigK s
  else if elapsed s ≥ currwaitTime ∧ elapsed s < currwaitTime + yellowDelay then
    let s1 :=
      if s.flag then
        setFlag false (digitalWrite (signal1 1) LOW (delay 3000 irq (sig1
          (digitalWrite (signalK 1) LOW s))))
      else s
    println text (digitalWrite (signalK 1) LOW s1)
  else
    s

/-- Last `if` of `loop`: the cycle reset, lines 170-173. -/
def resetBlock (prevwaitTime : Nat) (s : State) : State :=
  if elapsed s > prevwaitTime then
    println "#reset" { s with prevTime := s.currTime }
  else
    s

/-- One pass of `loop`.  `now` is the value returned by `millis()`, `irq` tells whether the
button interrupt fires during the `delay(3000)` of a serviced emergency. -/
def loop (now : Nat) (irq : Bool) (s : State) : State :=
  let s0 : State := { s with currTime := now % wordSize }
  let currwaitTime1 := redDelay
  let s1 := block1 currwaitTime1 irq s0
  let prevwaitTime2 := currwaitTime1 + yellowDelay
  let currwaitTime2 := prevwaitTime2 + redDelay
  let s2 := phaseBlock prevwaitTime2 currwaitTime2 sig2 signal2 "#2 wait" irq s1
  let prevwaitTime3 := currwaitTime2 + yellowDelay
  let currwaitTime3 := prevwaitTime3 + redDelay
  let s3 := phaseBlock prevwaitTime3 currwaitTime3 sig3 signal3 "#3 wait" irq s2
  let prevwaitTime4 := currwaitTime3 + yellowDelay
  let currwaitTime4 := prevwaitTime4 + redDelay
  let s4 := phaseBlock prevwaitTime4 currwaitTime4 sig4 signal4 "#4 wait" irq s3
  let prevwaitTime5 := currwaitTime4 + yellowDelay
  resetBlock prevwaitTime5 s4

/-- State after `setup()`: every output is off, the latch is clear, nothing has happened. -/
def initState : State :=
  { pins := fun _ => LOW, flag := false, currTime := 0, prevTime := 0, log := [], holdPins := [] }

/-- Pin table of approach `i` (approach 0 is road 1, ..., approach 3 is road 4). -/
def signal (i : Fin 4) : Fin 2 → Nat := ![signal1, signal2, signal3, signal4] i

/-- Green (Go) output of approach `i`. -/
def goPin (i : Fin 4) : Nat := signal i 1

/-- Red (Stop) output of approach `i`. -/
def stopPin (i : Fin 4) : Nat := signal i 0

/-- State function of approach `i`: `sig1`, ..., `sig4`. -/
def sig (i : Fin 4) : State → State := ![sig1, sig2, sig3, sig4] i

/-- Text printed by the intermediate branch of approach `i`. -/
def waitText (i : Fin 4) : String := !["#1 wait", "#2 wait", "#3 wait", "#4 wait"] i

/-- Level of the Go output of approach `i`. -/
def go (i : Fin 4) (p : Pins) : Bool := p (goPin i)

/-- Level of the Stop output of approach `i`. -/
def stop (i : Fin 4) (p : Pins) : Bool := p (stopPin i)

/-- Approach `i` shows Go: Go output asserted, Stop output de-asserted. -/
def showsGo (i : Fin 4) (p : Pins) : Prop := go i p = true ∧ stop i p = false

/-- Approach `i` shows Stop: Stop output asserted, Go output de-asserted. -/
def showsStop (i : Fin 4) (p : Pins) : Prop := stop i p = true ∧ go i p = false

/-- At most one approach has its Go output asserted. -/
def atMostOneGo (p : Pins) : Prop := ∀ i j : Fin 4, go i p = true → go j p = true → i = j

/-- Value of `prevwaitTime` when `loop` tests the branches of approach `i`. -/
def prevwait (i : Fin 4) : Nat := i.val * (redDelay + yellowDelay)

/-- Value of `currwaitTime` when `loop` tests the branches of approach `i`. -/
def currwait (i : Fin 4) : Nat := prevwait i + redDelay

/-- Condition under which `loop` calls the state function of approach `i`, for elapsed time
`e`: line 89 for approach 0, lines 114, 132, 150 for the others. -/
def takesThrough (i : Fin 4) (e : Nat) : Prop :=
  if i = 0 then e < currwait i else e > prevwait i ∧ e ≤ currwait i

/-- Condition under which `loop` enters the intermediate ("wait") branch of approach `i`: the
`if` has failed and the `else if` of lines 101, 117, 135, 154 holds. -/
def takesCaution (i : Fin 4) (e : Nat) : Prop :=
  ¬ takesThrough i e ∧ e ≥ currwait i ∧ e < currwait i + yellowDelay

instance (i : Fin 4) (e : Nat) : Decidable (takesThrough i e) := by
  unfold takesThrough; infer_instance

instance (i : Fin 4) (e : Nat) : Decidable (takesCaution i e) := by
  unfold takesCaution; infer_instance

/-- Elapsed time that an invocation of `loop` at timestamp `now` computes from state `s`. -/
def elapsedAt (now : Nat) (s : State) : Nat := usub now s.prevTime

/-- State of `loop` right after `currTime = millis()`. -/
def sample (now : Nat) (s : State) : State := { s with currTime := now % wordSize }

/-- Servicing of a pending emergency inside the intermediate branch of approach `i`
(lines 103-105 for approach 0, lines 119-123, 137-141, 156-160 for the others). -/
def service (i : Fin 4) (irq : Bool) (s : State) : State :=
  if i = 0 then setFlag false (delay 3000 irq (sig1 s))
  else setFlag false (digitalWrite (signal1 1) LOW (delay 3000 irq (sig1
    (digitalWrite (goPin i) LOW s))))

/-- Events that one invocation of `loop` appends to the log. -/
def emitted (now : Nat) (irq : Bool) (s : State) : List Event :=
  (loop now irq s).log.drop s.log.length

/-- Durations of the `delay` calls in a list of events. -/
def delays : List Event → List Nat
  | [] => []
  | Event.delay ms :: es => ms :: delays es
  | _ :: es => delays es

/-- Pins written `HIGH` among the Go outputs, in order: the grants of right-of-way. -/
def goGrants : List Event → List Nat
  | [] => []
  | Event.write pin level :: es =>
      if level = HIGH ∧ (pin = goPin 0 ∨ pin = goPin 1 ∨ pin = goPin 2 ∨ pin = goPin 3) then
        pin :: goGrants es
      else goGrants es
  | _ :: es => goGrants es

/-- Events of the state function of approach `i`. -/
def sigEvents (i : Fin 4) : List Event := (sig i initState).log

/-- Events of a pass that services an emergency in the intermediate branch of approach `i`. -/
def serviceEvents (i : Fin 4) (irq : Bool) : List Event :=
  (println (waitText i) (digitalWrite (goPin i) LOW (service i irq initState))).log

/-- Events of a pass through the intermediate branch of approach `i` with the latch clear. -/
def clearEvents (i : Fin 4) : List Event :=
  [Event.write (goPin i) LOW, Event.println (waitText i)]

/-- Pin levels in force during the hold of a serviced emergency. -/
def holdLevels (i : Fin 4) (s : State) : Pins :=
  (sig1 (if i = 0 then s else digitalWrite (goPin i) LOW s)).pins

/-- State produced by a run in which `loop` is not re-entered for a long time: through
window of approach 1 at 8000 ms, next pass at 30000 ms (reset), button pressed, next pass at
35500 ms. -/
def lateRun : State := button_ISR (loop 30000 false (loop 8000 false initState))

/-- One scheduling step of a run: whether the button interrupt fires before the pass, the
value of `millis()` at the pass, and whether the interrupt fires during a hold of the pass. -/
structure Step where
  /-- The interrupt fires between the previous pass and this one. -/
  press : Bool
  /-- Timestamp at which `loop` is entered. -/
  now : Nat
  /-- The interrupt fires during the `delay(3000)` of this pass, if there is one. -/
  irq : Bool

/-- State in which the pass of step `st` is entered. -/
def Step.pre (st : Step) (s : State) : State := if st.press then button_ISR s else s

/-- State left by step `st`. -/
def Step.apply (st : Step) (s : State) : State := loop st.now st.irq (st.pre s)

/-- Time spent blocked in `delay` by the pass of step `st`. -/
def Step.held (st : Step) (s : State) : Nat := (delays (emitted st.now st.irq (st.pre s))).sum

/-- State after the steps of a run, in order. -/
def run (s : State) (steps : List Step) : State :=
  steps.foldl (fun acc st => st.apply acc) s

/-- Pacing of a run: each pass is entered at a timestamp `now < 2 ^ 32` with `lo ≤ now < hi`,
where for the next pass `lo` is the timestamp of this pass and `hi` is that timestamp plus the
time this pass spent in `delay` plus 2000 ms. -/
def paced (s : State) (lo hi : Nat) : List Step → Bool
  | [] => true
  | st :: rest =>
      decide (lo ≤ st.now) && decide (st.now < hi) && decide (st.now < wordSize) &&
        paced (st.apply s) st.now (st.now + st.held s + 2000) rest

/-- Invariant of paced runs, for a state `s` whose last pass was entered at timestamp `t`: an
approach has Go asserted only if `t` lies in its through window, and every recorded hold had
at most one Go asserted. -/
def Inv (s : State) (t : Nat) : Prop :=
  s.prevTime ≤ t ∧ (∀ j : Fin 4, go j s.pins = true → takesThrough j (t - s.prevTime)) ∧
    ∀ p ∈ s.holdPins, atMostOneGo p

/-- The events of a call of the state function of approach `i` occur, contiguously and in
order, in the list of events `es`: the state function has been called. -/
def calls (i : Fin 4) (es : List Event) : Prop := sigEvents i <:+: es

instance (i : Fin 4) (es : List Event) : Decidable (calls i es) := by
  unfold calls; infer_instance

/-! ## Lemmas about the primitives, the blocks and the windows -/

@[simp]
theorem digitalWrite_pins (pin : Nat) (v : Bool) (s : State) (q : Nat) :
    (digitalWrite pin v s).pins q = if q = pin then v else s.pins q := rfl

@[simp]
theorem digitalWrite_flag (pin : Nat) (v : Bool) (s : State) :
    (digitalWrite pin v s).flag = s.flag := rfl

@[simp]
theorem digitalWrite_currTime (pin : Nat) (v : Bool) (s : State) :
    (digitalWrite pin v s).currTime = s.currTime := rfl

@[simp]
theorem digitalWrite_prevTime (pin : Nat) (v : Bool) (s : State) :
    (digitalWrite pin v s).prevTime = s.prevTime := rfl

@[simp]
theorem digitalWrite_log (pin : Nat) (v : Bool) (s : State) :
    (digitalWrite pin v s).log = s.log ++ [Event.write pin v] := rfl

@[simp]
theorem digitalWrite_holdPins (pin : Nat) (v : Bool) (s : State) :
    (digitalWrite pin v s).holdPins = s.holdPins := rfl

@[simp]
theorem println_pins (t : String) (s : State) : (println t s).pins = s.pins := rfl

@[simp]
theorem println_flag (t : String) (s : State) : (println t s).flag = s.flag := rfl

@[simp]
theorem println_currTime (t : String) (s : State) :
    (println t s).currTime = s.currTime := rfl

@[simp]
theorem println_prevTime (t : String) (s : State) :
    (println t s).prevTime = s.prevTime := rfl

@[simp]
theorem println_log (t : String) (s : State) :
    (println t s).log = s.log ++ [Event.println t] := rfl

@[simp]
theorem println_holdPins (t : String) (s : State) :
    (println t s).holdPins = s.holdPins := rfl

@[simp]
theorem setFlag_pins (v : Bool) (s : State) : (setFlag v s).pins = s.pins := rfl

@[simp]
theorem setFlag_flag (v : Bool) (s : State) : (setFlag v s).flag = v := rfl

@[simp]
theorem setFlag_currTime (v : Bool) (s : State) :
    (setFlag v s).currTime = s.currTime := rfl

@[simp]
theorem setFlag_prevTime (v : Bool) (s : State) :
    (setFlag v s).prevTime = s.prevTime := rfl

@[simp]
theorem setFlag_log (v : Bool) (s : State) : (setFlag v s).log = s.log := rfl

@[simp]
theorem setFlag_holdPins (v : Bool) (s : State) :
    (setFlag v s).holdPins = s.holdPins := rfl

@[simp]
theorem button_ISR_pins (s : State) (q : Nat) :
    (button_ISR s).pins q = if q = ledPin then HIGH else s.pins q := rfl

@[simp]
theorem button_ISR_flag (s : State) : (button_ISR s).flag = true := rfl

@[simp]
theorem button_ISR_currTime (s : State) : (button_ISR s).currTime = s.currTime := rfl

@[simp]
theorem button_ISR_prevTime (s : State) : (button_ISR s).prevTime = s.prevTime := rfl

@[simp]
theorem button_ISR_holdPins (s : State) : (button_ISR s).holdPins = s.holdPins := rfl

@[simp]
theorem button_ISR_log (s : State) :
    (button_ISR s).log = s.log ++ [Event.println "////////////Interrupt////////////////////",
      Event.write ledPin HIGH] := by
  simp [button_ISR]

@[simp]
theorem delay_pins (ms : Nat) (irq : Bool) (s : State) (q : Nat) :
    (delay ms irq s).pins q = if irq = true ∧ q = ledPin then HIGH else s.pins q := by
  cases irq <;> simp [delay]

@[simp]
theorem delay_flag (ms : Nat) (irq : Bool) (s : State) :
    (delay ms irq s).flag = (irq || s.flag) := by
  cases irq <;> simp [delay]

@[simp]
theorem delay_currTime (ms : Nat) (irq : Bool) (s : State) :
    (delay ms irq s).currTime = s.currTime := by
  cases irq <;> simp [delay]

@[simp]
theorem delay_prevTime (ms : Nat) (irq : Bool) (s : State) :
    (delay ms irq s).prevTime = s.prevTime := by
  cases irq <;> simp [delay]

@[simp]
theorem delay_holdPins (ms : Nat) (irq : Bool) (s : State) :
    (delay ms irq s).holdPins = s.holdPins ++ [s.pins] := by
  cases irq <;> simp [delay]

@[simp]
theorem delay_log (ms : Nat) (irq : Bool) (s : State) :
    (delay ms irq s).log = s.log ++ Event.delay ms ::
      (if irq = true then [Event.println "////////////Interrupt////////////////////",
        Event.write ledPin HIGH] else []) := by
  cases irq <;> simp [delay]

@[simp]
theorem elapsed_digitalWrite (pin : Nat) (v : Bool) (s : State) :
    elapsed (digitalWrite pin v s) = elapsed s := rfl

@[simp]
theorem elapsed_println (t : String) (s : State) : elapsed (println t s) = elapsed s := rfl

@[simp]
theorem elapsed_setFlag (v : Bool) (s : State) : elapsed (setFlag v s) = elapsed s := rfl

@[simp]
theorem elapsed_delay (ms : Nat) (irq : Bool) (s : State) :
    elapsed (delay ms irq s) = elapsed s := by
  simp [elapsed]

@[simp]
theorem elapsed_sig1 (s : State) : elapsed (sig1 s) = elapsed s := rfl

@[simp]
theorem elapsed_sig2 (s : State) : elapsed (sig2 s) = elapsed s := rfl

@[simp]
theorem elapsed_sig3 (s : State) : elapsed (sig3 s) = elapsed s := rfl

@[simp]
theorem elapsed_sig4 (s : State) : elapsed (sig4 s) = elapsed s := rfl

@[simp]
theorem elapsed_sample (now : Nat) (s : State) : elapsed (sample now s) = elapsedAt now s := by
  simp [elapsed, sample, elapsedAt, usub]

@[simp]
theorem elapsed_ite (c : Prop) [Decidable c] (a b : State) (h : elapsed a = elapsed b) :
    elapsed (if c then a else b) = elapsed b := by
  split <;> simp [h]

theorem elapsedAt_lt (now : Nat) (s : State) : elapsedAt now s < wordSize :=
  Nat.mod_lt _ (by decide)

/-- Without wraparound the elapsed time is the plain difference of the timestamps. -/
theorem elapsedAt_eq_sub (now : Nat) (s : State) (h1 : s.prevTime ≤ now) (h2 : now < wordSize) :
    elapsedAt now s = now - s.prevTime := by
  have hp : s.prevTime < wordSize := by omega
  unfold elapsedAt usub
  rw [Nat.mod_eq_of_lt h2, Nat.mod_eq_of_lt hp]
  have h3 : now + (wordSize - s.prevTime) = (now - s.prevTime) + wordSize := by omega
  rw [h3, Nat.add_mod_right, Nat.mod_eq_of_lt (by omega)]

theorem loop_eq (now : Nat) (irq : Bool) (s : State) :
    loop now irq s = resetBlock 28000 (phaseBlock 21000 26000 sig4 signal4 "#4 wait" irq
      (phaseBlock 14000 19000 sig3 signal3 "#3 wait" irq
        (phaseBlock 7000 12000 sig2 signal2 "#2 wait" irq
          (block1 5000 irq (sample now s))))) := rfl

theorem block1_through {c e : Nat} {irq : Bool} {s : State} (he : elapsed s = e) (h : e < c) :
    block1 c irq s = sig1 s := by
  simp [block1, he, h]

theorem block1_caution {c e : Nat} {irq : Bool} {s : State} (he : elapsed s = e) (h1 : c ≤ e)
    (h2 : e < c + 2000) :
    block1 c irq s = println "#1 wait" (digitalWrite (signal1 1) LOW
      (if s.flag then setFlag false (delay 3000 irq (sig1 s)) else s)) := by
  have h3 : ¬ e < c := by omega
  simp [block1, he, h1, h2, h3, yellowDelay]

theorem block1_skip {c e : Nat} {irq : Bool} {s : State} (he : elapsed s = e)
    (h : c + 2000 ≤ e) : block1 c irq s = s := by
  have h1 : ¬ e < c := by omega
  have h2 : ¬ e < c + 2000 := by omega
  simp [block1, he, h1, h2, yellowDelay]

theorem phaseBlock_through {p c e : Nat} {sigK : State → State} {signalK : Fin 2 → Nat}
    {text : String} {irq : Bool} {s : State} (he : elapsed s = e) (h1 : p < e) (h2 : e ≤ c) :
    phaseBlock p c sigK signalK text irq s = sigK s := by
  simp [phaseBlock, he, h1, h2]

theorem phaseBlock_caution {p c e : Nat} {sigK : State → State} {signalK : Fin 2 → Nat}
    {text : String} {irq : Bool} {s : State} (he : elapsed s = e) (h1 : c < e)
    (h2 : e < c + 2000) :
    phaseBlock p c sigK signalK text irq s = println text (digitalWrite (signalK 1) LOW
      (if s.flag then setFlag false (digitalWrite (signal1 1) LOW (delay 3000 irq (sig1
        (digitalWrite (signalK 1) LOW s)))) else s)) := by
  have h3 : ¬ e ≤ c := by omega
  have h4 : c ≤ e := by omega
  simp [phaseBlock, he, h2, h3, h4, yellowDelay]

theorem phaseBlock_skip {p c e : Nat} {sigK : State → State} {signalK : Fin 2 → Nat}
    {text : String} {irq : Bool} {s : State} (he : elapsed s = e) (hpc : p < c)
    (h : e ≤ p ∨ c + 2000 ≤ e) :
    phaseBlock p c sigK signalK text irq s = s := by
  have h1 : ¬ (p < e ∧ e ≤ c) := by omega
  have h2 : ¬ (c ≤ e ∧ e < c + 2000) := by omega
  simp only [phaseBlock, he, yellowDelay, gt_iff_lt, ge_iff_le, if_neg h1, if_neg h2]

theorem resetBlock_skip {p e : Nat} {s : State} (he : elapsed s = e) (h : e ≤ p) :
    resetBlock p s = s := by
  have h1 : ¬ p < e := by omega
  simp [resetBlock, he, h1]

theorem resetBlock_fire {p e : Nat} {s : State} (he : elapsed s = e) (h : p < e) :
    resetBlock p s = println "#reset" { s with prevTime := s.currTime } := by
  simp [resetBlock, he, h]

theorem loop_of_blocks {now : Nat} {irq : Bool} {s a b c d r : State}
    (h1 : block1 5000 irq (sample now s) = a)
    (h2 : phaseBlock 7000 12000 sig2 signal2 "#2 wait" irq a = b)
    (h3 : phaseBlock 14000 19000 sig3 signal3 "#3 wait" irq b = c)
    (h4 : phaseBlock 21000 26000 sig4 signal4 "#4 wait" irq c = d)
    (h5 : resetBlock 28000 d = r) : loop now irq s = r := by
  rw [loop_eq, h1, h2, h3, h4, h5]

/-- In the through branch of approach `i` the pass is the state function of approach `i`. -/
theorem loop_through (i : Fin 4) (now : Nat) (irq : Bool) (s : State)
    (h : takesThrough i (elapsedAt now s)) : loop now irq s = sig i (sample now s) := by
  have he := elapsed_sample now s
  fin_cases i <;> simp [takesThrough, currwait, prevwait, redDelay, yellowDelay] at h
  · exact loop_of_blocks (block1_through he (by omega))
      (phaseBlock_skip (e := elapsedAt now s) (by simp) (by omega) (by omega))
      (phaseBlock_skip (e := elapsedAt now s) (by simp) (by omega) (by omega))
      (phaseBlock_skip (e := elapsedAt now s) (by simp) (by omega) (by omega))
      (resetBlock_skip (e := elapsedAt now s) (by simp) (by omega))
  · exact loop_of_blocks (block1_skip he (by omega))
      (phaseBlock_through (e := elapsedAt now s) (by simp) (by omega) (by omega))
      (phaseBlock_skip (e := elapsedAt now s) (by simp) (by omega) (by omega))
      (phaseBlock_skip (e := elapsedAt now s) (by simp) (by omega) (by omega))
      (resetBlock_skip (e := elapsedAt now s) (by simp) (by omega))
  · exact loop_of_blocks (block1_skip he (by omega))
      (phaseBlock_skip (e := elapsedAt now s) (by simp) (by omega) (by omega))
      (phaseBlock_through (e := elapsedAt now s) (by simp) (by omega) (by omega))
      (phaseBlock_skip (e := elapsedAt now s) (by simp) (by omega) (by omega))
      (resetBlock_skip (e := elapsedAt now s) (by simp) (by omega))
  · exact loop_of_blocks (block1_skip he (by omega))
      (phaseBlock_skip (e := elapsedAt now s) (by simp) (by omega) (by omega))
      (phaseBlock_skip (e := elapsedAt now s) (by simp) (by omega) (by omega))
      (phaseBlock_through (e := elapsedAt now s) (by simp) (by omega) (by omega))
      (resetBlock_skip (e := elapsedAt now s) (by simp) (by omega))

/-- In the intermediate branch of approach `i` with the latch clear, the pass switches the Go
output of approach `i` off and prints. -/
theorem loop_caution_clear (i : Fin 4) (now : Nat) (irq : Bool) (s : State)
    (h : takesCaution i (elapsedAt now s)) (hf : s.flag = false) :
    loop now irq s = println (waitText i) (digitalWrite (goPin i) LOW (sample now s)) := by
  have he := elapsed_sample now s
  have hf2 : (sample now s).flag = false := hf
  fin_cases i <;>
    simp [takesCaution, takesThrough, currwait, prevwait, redDelay, yellowDelay] at h
  · refine (loop_of_blocks (block1_caution he (by omega) (by omega))
      (phaseBlock_skip (e := elapsedAt now s) (by simp) (by omega) (by omega))
      (phaseBlock_skip (e := elapsedAt now s) (by simp) (by omega) (by omega))
      (phaseBlock_skip (e := elapsedAt now s) (by simp) (by omega) (by omega))
      (resetBlock_skip (e := elapsedAt now s) (by simp) (by omega))).trans ?_
    simp [hf2, waitText, goPin, signal]
  · refine (loop_of_blocks (block1_skip he (by omega))
      (phaseBlock_caution (e := elapsedAt now s) (by simp) (by omega) (by omega))
      (phaseBlock_skip (e := elapsedAt now s) (by simp) (by omega) (by omega))
      (phaseBlock_skip (e := elapsedAt now s) (by simp) (by omega) (by omega))
      (resetBlock_skip (e := elapsedAt now s) (by simp) (by omega))).trans ?_
    simp [hf2, waitText, goPin, signal]
  · refine (loop_of_blocks (block1_skip he (by omega))
      (phaseBlock_skip (e := elapsedAt now s) (by simp) (by omega) (by omega))
      (phaseBlock_caution (e := elapsedAt now s) (by simp) (by omega) (by omega))
      (phaseBlock_skip (e := elapsedAt now s) (by simp) (by omega) (by omega))
      (resetBlock_skip (e := elapsedAt now s) (by simp) (by omega))).trans ?_
    simp [hf2, waitText, goPin, signal]
  · refine (loop_of_blocks (block1_skip he (by omega))
      (phaseBlock_skip (e := elapsedAt now s) (by simp) (by omega) (by omega))
      (phaseBlock_skip (e := elapsedAt now s) (by simp) (by omega) (by omega))
      (phaseBlock_caution (e := elapsedAt now s) (by simp) (by omega) (by omega))
      (resetBlock_skip (e := elapsedAt now s) (by simp) (by omega))).trans ?_
    simp [hf2, waitText, goPin, signal]

/-- In the intermediate branch of approach `i` with the latch set, the pass services the
emergency, then switches the Go output of approach `i` off and prints. -/
theorem loop_caution_set (i : Fin 4) (now : Nat) (irq : Bool) (s : State)
    (h : takesCaution i (elapsedAt now s)) (hf : s.flag = true) :
    loop now irq s =
      println (waitText i) (digitalWrite (goPin i) LOW (service i irq (sample now s))) := by
  have he := elapsed_sample now s
  have hf2 : (sample now s).flag = true := hf
  fin_cases i <;>
    simp [takesCaution, takesThrough, currwait, prevwait, redDelay, yellowDelay] at h
  · refine (loop_of_blocks (block1_caution he (by omega) (by omega))
      (phaseBlock_skip (e := elapsedAt now s) (by simp) (by omega) (by omega))
      (phaseBlock_skip (e := elapsedAt now s) (by simp) (by omega) (by omega))
      (phaseBlock_skip (e := elapsedAt now s) (by simp) (by omega) (by omega))
      (resetBlock_skip (e := elapsedAt now s) (by simp) (by omega))).trans ?_
    simp [hf2, waitText, goPin, signal, service]
  · refine (loop_of_blocks (block1_skip he (by omega))
      (phaseBlock_caution (e := elapsedAt now s) (by simp) (by omega) (by omega))
      (phaseBlock_skip (e := elapsedAt now s) (by simp) (by omega) (by omega))
      (phaseBlock_skip (e := elapsedAt now s) (by simp) (by omega) (by omega))
      (resetBlock_skip (e := elapsedAt now s) (by simp) (by omega))).trans ?_
    simp [hf2, waitText, goPin, signal, service]
  · refine (loop_of_blocks (block1_skip he (by omega))
      (phaseBlock_skip (e := elapsedAt now s) (by simp) (by omega) (by omega))
      (phaseBlock_caution (e := elapsedAt now s) (by simp) (by omega) (by omega))
      (phaseBlock_skip (e := elapsedAt now s) (by simp) (by omega) (by omega))
      (resetBlock_skip (e := elapsedAt now s) (by simp) (by omega))).trans ?_
    simp [hf2, waitText, goPin, signal, service]
  · refine (loop_of_blocks (block1_skip he (by omega))
      (phaseBlock_skip (e := elapsedAt now s) (by simp) (by omega) (by omega))
      (phaseBlock_skip (e := elapsedAt now s) (by simp) (by omega) (by omega))
      (phaseBlock_caution (e := elapsedAt now s) (by simp) (by omega) (by omega))
      (resetBlock_skip (e := elapsedAt now s) (by simp) (by omega))).trans ?_
    simp [hf2, waitText, goPin, signal, service]

/-- Past the end of the cycle the pass only resets `prevTime`. -/
theorem loop_reset (now : Nat) (irq : Bool) (s : State) (h : 28000 < elapsedAt now s) :
    loop now irq s = println "#reset" { sample now s with prevTime := (sample now s).currTime } := by
  have he := elapsed_sample now s
  exact loop_of_blocks (block1_skip he (by omega))
      (phaseBlock_skip (e := elapsedAt now s) (by simp) (by omega) (by omega))
      (phaseBlock_skip (e := elapsedAt now s) (by simp) (by omega) (by omega))
      (phaseBlock_skip (e := elapsedAt now s) (by simp) (by omega) (by omega))
      (resetBlock_fire he (by omega))

/-- When no condition of `loop` holds the pass only samples the clock. -/
theorem loop_idle (now : Nat) (irq : Bool) (s : State)
    (h : elapsedAt now s = 7000 ∨ elapsedAt now s = 14000 ∨ elapsedAt now s = 21000 ∨
      elapsedAt now s = 28000) :
    loop now irq s = sample now s := by
  have he := elapsed_sample now s
  exact loop_of_blocks (block1_skip he (by omega))
      (phaseBlock_skip (e := elapsedAt now s) (by simp) (by omega) (by omega))
      (phaseBlock_skip (e := elapsedAt now s) (by simp) (by omega) (by omega))
      (phaseBlock_skip (e := elapsedAt now s) (by simp) (by omega) (by omega))
      (resetBlock_skip he (by omega))

/-- Every elapsed time falls under one of the cases of `loop`. -/
theorem window_cases (e : Nat) :
    (∃ i, takesThrough i e) ∨ (∃ i, takesCaution i e) ∨
      (e = 7000 ∨ e = 14000 ∨ e = 21000 ∨ e = 28000) ∨ 28000 < e := by
  by_cases h0 : e < 5000
  · exact Or.inl ⟨0, by simp [takesThrough, currwait, prevwait, redDelay]; omega⟩
  by_cases h1 : e < 7000
  · exact Or.inr (Or.inl ⟨0, by
      simp [takesCaution, takesThrough, currwait, prevwait, redDelay, yellowDelay]; omega⟩)
  by_cases h2 : e ≤ 12000
  · by_cases h2a : e = 7000
    · exact Or.inr (Or.inr (Or.inl (Or.inl h2a)))
    · exact Or.inl ⟨1, by simp [takesThrough, currwait, prevwait, redDelay, yellowDelay]; omega⟩
  by_cases h3 : e < 14000
  · exact Or.inr (Or.inl ⟨1, by
      simp [takesCaution, takesThrough, currwait, prevwait, redDelay, yellowDelay]; omega⟩)
  by_cases h4 : e ≤ 19000
  · by_cases h4a : e = 14000
    · exact Or.inr (Or.inr (Or.inl (Or.inr (Or.inl h4a))))
    · exact Or.inl ⟨2, by simp [takesThrough, currwait, prevwait, redDelay, yellowDelay]; omega⟩
  by_cases h5 : e < 21000
  · exact Or.inr (Or.inl ⟨2, by
      simp [takesCaution, takesThrough, currwait, prevwait, redDelay, yellowDelay]; omega⟩)
  by_cases h6 : e ≤ 26000
  · by_cases h6a : e = 21000
    · exact Or.inr (Or.inr (Or.inl (Or.inr (Or.inr (Or.inl h6a)))))
    · exact Or.inl ⟨3, by simp [takesThrough, currwait, prevwait, redDelay, yellowDelay]; omega⟩
  by_cases h7 : e < 28000
  · exact Or.inr (Or.inl ⟨3, by
      simp [takesCaution, takesThrough, currwait, prevwait, redDelay, yellowDelay]; omega⟩)
  by_cases h8 : e = 28000
  · exact Or.inr (Or.inr (Or.inl (Or.inr (Or.inr (Or.inr h8)))))
  · exact Or.inr (Or.inr (Or.inr (by omega)))

@[simp]
theorem sample_pins (now : Nat) (s : State) : (sample now s).pins = s.pins := rfl

@[simp]
theorem sample_flag (now : Nat) (s : State) : (sample now s).flag = s.flag := rfl

@[simp]
theorem sample_log (now : Nat) (s : State) : (sample now s).log = s.log := rfl

@[simp]
theorem sample_holdPins (now : Nat) (s : State) : (sample now s).holdPins = s.holdPins := rfl

@[simp]
theorem sample_prevTime (now : Nat) (s : State) : (sample now s).prevTime = s.prevTime := rfl

@[simp]
theorem sample_currTime (now : Nat) (s : State) :
    (sample now s).currTime = now % wordSize := rfl

theorem sig_go (i j : Fin 4) (s : State) :
    go j (sig i s).pins = if j = i then true else go j s.pins := by
  fin_cases i <;> fin_cases j <;>
    simp [sig, sig1, sig2, sig3, sig4, go, goPin, signal, signal1, signal2, signal3, signal4]

theorem sig_stop (i j : Fin 4) (s : State) :
    stop j (sig i s).pins = if j = i then false else true := by
  fin_cases i <;> fin_cases j <;>
    simp [sig, sig1, sig2, sig3, sig4, stop, stopPin, signal, signal1, signal2, signal3, signal4]

theorem sig_flag (i : Fin 4) (s : State) : (sig i s).flag = s.flag := by
  fin_cases i <;> rfl

theorem sig_prevTime (i : Fin 4) (s : State) : (sig i s).prevTime = s.prevTime := by
  fin_cases i <;> rfl

theorem sig_currTime (i : Fin 4) (s : State) : (sig i s).currTime = s.currTime := by
  fin_cases i <;> rfl

theorem sig_holdPins (i : Fin 4) (s : State) : (sig i s).holdPins = s.holdPins := by
  fin_cases i <;> rfl

theorem sig_log (i : Fin 4) (s : State) : (sig i s).log = s.log ++ sigEvents i := by
  fin_cases i <;> simp [sig, sig1, sig2, sig3, sig4, sigEvents, initState]

theorem sig_pins_congr (i : Fin 4) (s t : State) (h : s.pins = t.pins) :
    (sig i s).pins = (sig i t).pins := by
  fin_cases i <;> funext q <;> simp [sig, sig1, sig2, sig3, sig4, h]

theorem emitted_eq {now : Nat} {irq : Bool} {s : State} {es : List Event}
    (h : (loop now irq s).log = s.log ++ es) : emitted now irq s = es := by
  simp [emitted, h]

theorem loop_caution_set_log (i : Fin 4) (now : Nat) (irq : Bool) (s : State)
    (h : takesCaution i (elapsedAt now s)) (hf : s.flag = true) :
    (loop now irq s).log = s.log ++ serviceEvents i irq := by
  rw [loop_caution_set i now irq s h hf]
  fin_cases i <;> cases irq <;>
    simp [serviceEvents, service, sig1, waitText, goPin, signal, initState]

theorem loop_caution_set_flag (i : Fin 4) (now : Nat) (irq : Bool) (s : State)
    (h : takesCaution i (elapsedAt now s)) (hf : s.flag = true) :
    (loop now irq s).flag = false := by
  rw [loop_caution_set i now irq s h hf]
  unfold service
  split <;> simp

theorem loop_caution_set_holdPins (i : Fin 4) (now : Nat) (irq : Bool) (s : State)
    (h : takesCaution i (elapsedAt now s)) (hf : s.flag = true) :
    (loop now irq s).holdPins = s.holdPins ++ [holdLevels i s] := by
  rw [loop_caution_set i now irq s h hf]
  fin_cases i <;> simp [service, holdLevels, sig1, goPin, signal] <;> rfl

theorem holdLevels_go (i j : Fin 4) (s : State) :
    go j (holdLevels i s) = if j = 0 then true else if j = i then false else go j s.pins := by
  fin_cases i <;> fin_cases j <;>
    simp [holdLevels, sig1, go, goPin, signal, signal1, signal2, signal3, signal4]

theorem serviceEvents_delays (i : Fin 4) (irq : Bool) : delays (serviceEvents i irq) = [3000] := by
  revert i irq
  decide

theorem serviceEvents_goGrants (i : Fin 4) (irq : Bool) :
    goGrants (serviceEvents i irq) = [goPin 0] := by
  revert i irq
  decide

theorem sigEvents_delays (i : Fin 4) : delays (sigEvents i) = [] := by
  revert i
  decide

theorem takesThrough_val (i : Fin 4) (e : Nat) :
    takesThrough i e ↔
      (i.val = 0 ∧ e < 5000) ∨ (i.val ≠ 0 ∧ 7000 * i.val < e ∧ e ≤ 7000 * i.val + 5000) := by
  fin_cases i <;> simp [takesThrough, currwait, prevwait, redDelay, yellowDelay]

theorem takesCaution_val (i : Fin 4) (e : Nat) :
    takesCaution i e ↔
      (i.val = 0 ∧ 5000 ≤ e ∧ e < 7000) ∨
        (i.val ≠ 0 ∧ 7000 * i.val + 5000 < e ∧ e < 7000 * i.val + 7000) := by
  fin_cases i <;> simp [takesCaution, takesThrough, currwait, prevwait, redDelay, yellowDelay]
    <;> omega

theorem through_then_through {i j : Fin 4} {a e : Nat} (hj : takesThrough j a) (h1 : a ≤ e)
    (h2 : e < a + 2000) (hi : takesThrough i e) : j = i := by
  rw [takesThrough_val] at hj hi
  have bi := i.isLt
  have bj := j.isLt
  exact Fin.ext (by omega)

theorem through_then_caution {i j : Fin 4} {a e : Nat} (hj : takesThrough j a) (h1 : a ≤ e)
    (h2 : e < a + 2000) (hi : takesCaution i e) : j = i := by
  rw [takesThrough_val] at hj
  rw [takesCaution_val] at hi
  have bi := i.isLt
  have bj := j.isLt
  exact Fin.ext (by omega)

theorem through_then_other {j : Fin 4} {a e : Nat} (hj : takesThrough j a) (h1 : a ≤ e)
    (h2 : e < a + 2000) :
    ¬ (e = 7000 ∨ e = 14000 ∨ e = 21000 ∨ e = 28000) ∧ ¬ 28000 < e := by
  rw [takesThrough_val] at hj
  have bj := j.isLt
  constructor <;> omega

theorem pre_go (st : Step) (s : State) (j : Fin 4) : go j (st.pre s).pins = go j s.pins := by
  unfold Step.pre
  split
  · fin_cases j <;>
      simp [go, goPin, signal, signal1, signal2, signal3, signal4, ledPin]
  · rfl

theorem pre_prevTime (st : Step) (s : State) : (st.pre s).prevTime = s.prevTime := by
  unfold Step.pre
  split <;> rfl

theorem pre_holdPins (st : Step) (s : State) : (st.pre s).holdPins = s.holdPins := by
  unfold Step.pre
  split <;> rfl

theorem pre_elapsedAt (st : Step) (now : Nat) (s : State) :
    elapsedAt now (st.pre s) = elapsedAt now s := by
  unfold elapsedAt
  rw [pre_prevTime]

theorem caution_clear_go (i j : Fin 4) (t : String) (s : State) :
    go j (println t (digitalWrite (goPin i) LOW s)).pins =
      if j = i then false else go j s.pins := by
  fin_cases i <;> fin_cases j <;>
    simp [go, goPin, signal, signal1, signal2, signal3, signal4]

theorem caution_set_go (i j : Fin 4) (t : String) (irq : Bool) (s : State) :
    go j (println t (digitalWrite (goPin i) LOW (service i irq s))).pins =
      if j = 0 then false else if j = i then false else go j s.pins := by
  fin_cases i <;> fin_cases j <;> cases irq <;>
    simp [service, sig1, go, goPin, signal, signal1, signal2, signal3, signal4, ledPin]

theorem service_prevTime (i : Fin 4) (irq : Bool) (s : State) :
    (service i irq s).prevTime = s.prevTime := by
  unfold service
  split <;> simp [sig1]

theorem through_unique {i j : Fin 4} {e : Nat} (hj : takesThrough j e) (hi : takesThrough i e) :
    j = i :=
  through_then_through hj (Nat.le_refl e) (by omega) hi

/-- One step of a paced run preserves the invariant; a pass that leaves some Go asserted has
not blocked; and after a through branch exactly the approach of that branch has Go. -/
theorem step_inv (s : State) (lo hi : Nat) (st : Step) (hinv : Inv s lo)
    (hgo : (∃ j : Fin 4, go j s.pins = true) → hi ≤ lo + 2000)
    (h1 : lo ≤ st.now) (h2 : st.now < hi) (h3 : st.now < wordSize) :
    Inv (st.apply s) st.now ∧
      ((∃ j : Fin 4, go j (st.apply s).pins = true) → st.held s = 0) ∧
      ∀ i : Fin 4, takesThrough i (elapsedAt st.now s) →
        ∀ j : Fin 4, go j (st.apply s).pins = true ↔ j = i := by
  obtain ⟨hp, hthru, hhold⟩ := hinv
  have hpre : (st.pre s).prevTime ≤ st.now := by rw [pre_prevTime]; omega
  have he : elapsedAt st.now (st.pre s) = st.now - s.prevTime := by
    rw [elapsedAt_eq_sub st.now (st.pre s) hpre h3, pre_prevTime]
  have he2 : elapsedAt st.now s = st.now - s.prevTime := by
    rw [← pre_elapsedAt st, he]
  -- an approach that still has Go pins the elapsed time of this pass near its through window
  have near : ∀ j : Fin 4, go j s.pins = true →
      takesThrough j (lo - s.prevTime) ∧ lo - s.prevTime ≤ st.now - s.prevTime ∧
        st.now - s.prevTime < lo - s.prevTime + 2000 := by
    intro j hj
    have := hgo ⟨j, hj⟩
    exact ⟨hthru j hj, by omega, by omega⟩
  rcases window_cases (st.now - s.prevTime) with ⟨i, hi⟩ | ⟨i, hi⟩ | hi | hi
  · -- through branch of approach i
    have hl : st.apply s = sig i (sample st.now (st.pre s)) :=
      loop_through i st.now st.irq (st.pre s) (he ▸ hi)
    have hgoes : ∀ j : Fin 4, go j (st.apply s).pins = true ↔ j = i := by
      intro j
      rw [hl, sig_go]
      constructor
      · intro hj
        by_contra hne
        rw [if_neg hne] at hj
        have hj2 : go j s.pins = true := by rw [← pre_go st s j]; exact hj
        obtain ⟨n1, n2, n3⟩ := near j hj2
        exact hne (through_then_through n1 n2 n3 hi)
      · intro hj
        simp [hj]
    have hprev : (st.apply s).prevTime = s.prevTime := by
      rw [hl, sig_prevTime]; exact pre_prevTime st s
    have hh : (st.apply s).holdPins = s.holdPins := by
      rw [hl, sig_holdPins]; exact pre_holdPins st s
    refine ⟨⟨?_, ?_, ?_⟩, ?_, ?_⟩
    · rw [hprev]; omega
    · intro j hj
      rw [(hgoes j).1 hj, hprev]
      exact hi
    · rw [hh]; exact hhold
    · intro _
      have : emitted st.now st.irq (st.pre s) = sigEvents i :=
        emitted_eq (by
          have := congrArg State.log hl
          rw [sig_log] at this
          exact this)
      unfold Step.held
      rw [this, sigEvents_delays]
      rfl
    · intro k hk
      rw [he2] at hk
      rw [through_unique hk hi]
      exact hgoes
  · -- intermediate branch of approach i
    have nogo : ∀ j : Fin 4, j ≠ i → go j (st.pre s).pins = false := by
      intro j hne
      rw [pre_go]
      by_contra hj
      have hj2 : go j s.pins = true := by simpa using hj
      obtain ⟨n1, n2, n3⟩ := near j hj2
      exact hne (through_then_caution n1 n2 n3 hi)
    have nothru : ∀ k : Fin 4, ¬ takesThrough k (st.now - s.prevTime) := by
      intro k hk
      rw [takesThrough_val] at hk
      rw [takesCaution_val] at hi
      have bi := i.isLt
      have bk := k.isLt
      omega
    cases hf : (st.pre s).flag
    · have hl : st.apply s = println (waitText i) (digitalWrite (goPin i) LOW
          (sample st.now (st.pre s))) :=
        loop_caution_clear i st.now st.irq (st.pre s) (he ▸ hi) hf
      have hoff : ∀ j : Fin 4, go j (st.apply s).pins = false := by
        intro j
        rw [hl, caution_clear_go]
        by_cases hji : j = i
        · simp [hji]
        · rw [if_neg hji]; exact nogo j hji
      have hprev : (st.apply s).prevTime = s.prevTime := by
        rw [hl]; exact pre_prevTime st s
      have hh : (st.apply s).holdPins = s.holdPins := by
        rw [hl]; exact pre_holdPins st s
      refine ⟨⟨?_, ?_, ?_⟩, ?_, ?_⟩
      · rw [hprev]; omega
      · intro j hj
        rw [hoff j] at hj
        exact Bool.noConfusion hj
      · rw [hh]; exact hhold
      · rintro ⟨j, hj⟩
        rw [hoff j] at hj
        exact Bool.noConfusion hj
      · intro k hk
        rw [he2] at hk
        exact absurd hk (nothru k)
    · have hl : st.apply s = println (waitText i) (digitalWrite (goPin i) LOW
          (service i st.irq (sample st.now (st.pre s)))) :=
        loop_caution_set i st.now st.irq (st.pre s) (he ▸ hi) hf
      have hoff : ∀ j : Fin 4, go j (st.apply s).pins = false := by
        intro j
        rw [hl, caution_set_go]
        by_cases hj0 : j = 0
        · simp [hj0]
        · rw [if_neg hj0]
          by_cases hji : j = i
          · simp [hji]
          · rw [if_neg hji]; exact nogo j hji
      refine ⟨⟨?_, ?_, ?_⟩, ?_, ?_⟩
      · have hprev : (st.apply s).prevTime = s.prevTime := by
          rw [hl]
          show (service i st.irq (sample st.now (st.pre s))).prevTime = s.prevTime
          rw [service_prevTime]
          exact pre_prevTime st s
        rw [hprev]; omega
      · intro j hj
        rw [hoff j] at hj
        exact Bool.noConfusion hj
      · have hh : (st.apply s).holdPins = (st.pre s).holdPins ++ [holdLevels i (st.pre s)] :=
          loop_caution_set_holdPins i st.now st.irq (st.pre s) (he ▸ hi) hf
        rw [hh, pre_holdPins]
        intro p hpm
        rcases List.mem_append.1 hpm with hm | hm
        · exact hhold p hm
        · rw [List.mem_singleton.1 hm]
          intro a b ha hb
          rw [holdLevels_go] at ha hb
          have ha0 : a = 0 := by
            by_contra hne
            rw [if_neg hne] at ha
            by_cases hai : a = i
            · simp [hai] at ha
            · rw [if_neg hai, nogo a hai] at ha
              exact Bool.noConfusion ha
          have hb0 : b = 0 := by
            by_contra hne
            rw [if_neg hne] at hb
            by_cases hbi : b = i
            · simp [hbi] at hb
            · rw [if_neg hbi, nogo b hbi] at hb
              exact Bool.noConfusion hb
          rw [ha0, hb0]
      · rintro ⟨j, hj⟩
        rw [hoff j] at hj
        exact Bool.noConfusion hj
      · intro k hk
        rw [he2] at hk
        exact absurd hk (nothru k)
  · -- no condition of the pass holds
    have hl : st.apply s = sample st.now (st.pre s) :=
      loop_idle st.now st.irq (st.pre s) (he ▸ hi)
    have hoff : ∀ j : Fin 4, go j (st.apply s).pins = false := by
      intro j
      rw [hl]
      show go j (st.pre s).pins = false
      rw [pre_go]
      by_contra hj
      have hj2 : go j s.pins = true := by simpa using hj
      obtain ⟨n1, n2, n3⟩ := near j hj2
      exact (through_then_other n1 n2 n3).1 hi
    have nothru : ∀ k : Fin 4, ¬ takesThrough k (st.now - s.prevTime) := by
      intro k hk
      rw [takesThrough_val] at hk
      have bk := k.isLt
      omega
    refine ⟨⟨?_, ?_, ?_⟩, ?_, ?_⟩
    · rw [hl]
      show (st.pre s).prevTime ≤ st.now
      exact hpre
    · intro j hj
      rw [hoff j] at hj
      exact Bool.noConfusion hj
    · rw [hl]
      show ∀ p ∈ (st.pre s).holdPins, atMostOneGo p
      rw [pre_holdPins]; exact hhold
    · rintro ⟨j, hj⟩
      rw [hoff j] at hj
      exact Bool.noConfusion hj
    · intro k hk
      rw [he2] at hk
      exact absurd hk (nothru k)
  · -- cycle reset
    have hl : st.apply s = println "#reset"
        { sample st.now (st.pre s) with prevTime := (sample st.now (st.pre s)).currTime } :=
      loop_reset st.now st.irq (st.pre s) (he ▸ hi)
    have hoff : ∀ j : Fin 4, go j (st.apply s).pins = false := by
      intro j
      rw [hl]
      show go j (st.pre s).pins = false
      rw [pre_go]
      by_contra hj
      have hj2 : go j s.pins = true := by simpa using hj
      obtain ⟨n1, n2, n3⟩ := near j hj2
      exact (through_then_other n1 n2 n3).2 hi
    have nothru : ∀ k : Fin 4, ¬ takesThrough k (st.now - s.prevTime) := by
      intro k hk
      rw [takesThrough_val] at hk
      have bk := k.isLt
      omega
    refine ⟨⟨?_, ?_, ?_⟩, ?_, ?_⟩
    · rw [hl]
      show st.now % wordSize ≤ st.now
      exact Nat.mod_le _ _
    · intro j hj
      rw [hoff j] at hj
      exact Bool.noConfusion hj
    · rw [hl]
      show ∀ p ∈ (st.pre s).holdPins, atMostOneGo p
      rw [pre_holdPins]; exact hhold
    · rintro ⟨j, hj⟩
      rw [hoff j] at hj
      exact Bool.noConfusion hj
    · intro k hk
      rw [he2] at hk
      exact absurd hk (nothru k)

theorem run_cons (s : State) (a : Step) (rest : List Step) :
    run s (a :: rest) = run (a.apply s) rest :=
  List.foldl_cons _ _

theorem run_nil (s : State) : run s [] = s :=
  List.foldl_nil

theorem run_append_single (s : State) (steps : List Step) (st : Step) :
    run s (steps ++ [st]) = st.apply (run s steps) := by
  unfold run
  rw [List.foldl_append, List.foldl_cons, List.foldl_nil]

/-- The invariant holds after every pass of a paced run, and a pass that takes a through
branch leaves exactly the approach of that branch with Go asserted. -/
theorem paced_run_inv (steps : List Step) (st : Step) :
    ∀ (s : State) (lo hi : Nat), Inv s lo →
      ((∃ j : Fin 4, go j s.pins = true) → hi ≤ lo + 2000) →
      paced s lo hi (steps ++ [st]) = true →
      Inv (run s (steps ++ [st])) st.now ∧
        ∀ i : Fin 4, takesThrough i (elapsedAt st.now (run s steps)) →
          ∀ j : Fin 4, go j (run s (steps ++ [st])).pins = true ↔ j = i := by
  induction steps with
  | nil =>
    intro s lo hi hinv hgo hp
    simp only [List.nil_append, paced, Bool.and_true, Bool.and_eq_true, decide_eq_true_eq] at hp
    obtain ⟨⟨h1, h2⟩, h3⟩ := hp
    obtain ⟨r1, _, r3⟩ := step_inv s lo hi st hinv hgo h1 h2 h3
    rw [List.nil_append, run_cons, run_nil]
    exact ⟨r1, r3⟩
  | cons a rest ih =>
    intro s lo hi hinv hgo hp
    simp only [List.cons_append, paced, Bool.and_eq_true, decide_eq_true_eq] at hp
    obtain ⟨⟨⟨h1, h2⟩, h3⟩, h4⟩ := hp
    obtain ⟨r1, r2, _⟩ := step_inv s lo hi a hinv hgo h1 h2 h3
    have hgo2 : (∃ j : Fin 4, go j (a.apply s).pins = true) →
        a.now + a.held s + 2000 ≤ a.now + 2000 := by
      intro hex
      rw [r2 hex]
    have hrec := ih (a.apply s) a.now (a.now + a.held s + 2000) r1 hgo2 h4
    rw [List.cons_append, run_cons, run_cons]
    exact hrec

theorem inv_initState : Inv initState 0 :=
  ⟨Nat.le_refl 0, fun j hj => by revert j; decide, fun p hp => by cases hp⟩

theorem inv_atMostOneGo {s : State} {t : Nat} (h : Inv s t) : atMostOneGo s.pins :=
  fun a b ha hb => through_unique (h.2.1 a ha) (h.2.1 b hb)

/-- The events of a pass, case by case. -/
theorem emitted_cases (now : Nat) (irq : Bool) (s : State) :
    (∃ j, takesThrough j (elapsedAt now s) ∧ emitted now irq s = sigEvents j) ∨
      (∃ j, takesCaution j (elapsedAt now s) ∧
        (emitted now irq s = clearEvents j ∨ emitted now irq s = serviceEvents j irq)) ∨
      ((elapsedAt now s = 7000 ∨ elapsedAt now s = 14000 ∨ elapsedAt now s = 21000 ∨
          elapsedAt now s = 28000) ∧ emitted now irq s = []) ∨
      (28000 < elapsedAt now s ∧ emitted now irq s = [Event.println "#reset"]) := by
  rcases window_cases (elapsedAt now s) with ⟨j, hj⟩ | ⟨j, hj⟩ | hj | hj
  · refine Or.inl ⟨j, hj, emitted_eq ?_⟩
    rw [loop_through j now irq s hj, sig_log]
    rfl
  · refine Or.inr (Or.inl ⟨j, hj, ?_⟩)
    cases hf : s.flag
    · refine Or.inl (emitted_eq ?_)
      rw [loop_caution_clear j now irq s hj hf]
      simp [clearEvents]
    · exact Or.inr (emitted_eq (loop_caution_set_log j now irq s hj hf))
  · refine Or.inr (Or.inr (Or.inl ⟨hj, emitted_eq ?_⟩))
    rw [loop_idle now irq s hj]
    simp
  · refine Or.inr (Or.inr (Or.inr ⟨hj, emitted_eq ?_⟩))
    rw [loop_reset now irq s hj]
    rfl

theorem through_not_caution {i j : Fin 4} {e : Nat} (hj : takesThrough j e)
    (hi : takesCaution i e) : False := by
  rw [takesThrough_val] at hj
  rw [takesCaution_val] at hi
  have bi := i.isLt
  have bj := j.isLt
  omega

theorem caution_unique {i j : Fin 4} {e : Nat} (hj : takesCaution j e)
    (hi : takesCaution i e) : j = i := by
  rw [takesCaution_val] at hj hi
  have bi := i.isLt
  have bj := j.isLt
  exact Fin.ext (by omega)

/-- The pass takes the intermediate branch of approach `i` exactly when it prints the text of
that branch. -/
theorem takesCaution_iff_printed (i : Fin 4) (now : Nat) (irq : Bool) (s : State) :
    takesCaution i (elapsedAt now s) ↔ Event.println (waitText i) ∈ emitted now irq s := by
  have k1 : ∀ a b : Fin 4, Event.println (waitText a) ∉ sigEvents b := by decide
  have k2 : ∀ a b : Fin 4, Event.println (waitText a) ∈ clearEvents b ↔ b = a := by decide
  have k3 : ∀ (a b : Fin 4) (q : Bool),
      Event.println (waitText a) ∈ serviceEvents b q ↔ b = a := by decide
  have k4 : ∀ a : Fin 4, Event.println (waitText a) ∉ [Event.println "#reset"] := by decide
  have bi := i.isLt
  rcases emitted_cases now irq s with ⟨j, hj, he⟩ | ⟨j, hj, he | he⟩ | ⟨hj, he⟩ | ⟨hj, he⟩
  · rw [he]
    exact ⟨fun h => (through_not_caution hj h).elim, fun h => (k1 i j h).elim⟩
  · rw [he, k2]
    exact ⟨fun h => caution_unique hj h, fun h => h ▸ hj⟩
  · rw [he, k3]
    exact ⟨fun h => caution_unique hj h, fun h => h ▸ hj⟩
  · rw [he, takesCaution_val]
    constructor
    · intro h
      omega
    · intro h
      cases h
  · rw [he, takesCaution_val]
    constructor
    · intro h
      omega
    · intro h
      exact (k4 i h).elim

/-- The pass takes the through branch of approach `i` exactly when its events are those of the
state function of approach `i`. -/
theorem takesThrough_iff_events (i : Fin 4) (now : Nat) (irq : Bool) (s : State) :
    takesThrough i (elapsedAt now s) ↔ emitted now irq s = sigEvents i := by
  have k1 : ∀ a b : Fin 4, sigEvents b = sigEvents a ↔ b = a := by decide
  have k2 : ∀ a b : Fin 4, clearEvents b ≠ sigEvents a := by decide
  have k3 : ∀ (a b : Fin 4) (q : Bool), serviceEvents b q ≠ sigEvents a := by decide
  have k4 : ∀ a : Fin 4, sigEvents a ≠ [] ∧ sigEvents a ≠ [Event.println "#reset"] := by decide
  have bi := i.isLt
  rcases emitted_cases now irq s with ⟨j, hj, he⟩ | ⟨j, hj, he | he⟩ | ⟨hj, he⟩ | ⟨hj, he⟩
  · rw [he, k1]
    exact ⟨fun h => through_unique hj h, fun h => h ▸ hj⟩
  · rw [he]
    exact ⟨fun h => (through_not_caution h hj).elim, fun h => (k2 i j h).elim⟩
  · rw [he]
    exact ⟨fun h => (through_not_caution h hj).elim, fun h => (k3 i j irq h).elim⟩
  · rw [he, takesThrough_val]
    constructor
    · intro h
      omega
    · intro h
      exact ((k4 i).1 h.symm).elim
  · rw [he, takesThrough_val]
    constructor
    · intro h
      omega
    · intro h
      exact ((k4 i).2 h.symm).elim

/-- Unsigned subtraction undoes an unsigned addition that wrapped around. -/
theorem usub_add_mod (p d : Nat) (hd : d < wordSize) :
    usub ((p + d) % wordSize) p = d := by
  have hw : wordSize = 4294967296 := by norm_num [wordSize]
  unfold usub
  rw [hw] at hd ⊢
  omega

theorem usub_zero (d : Nat) (hd : d < wordSize) : usub d 0 = d := by
  have hw : wordSize = 4294967296 := by norm_num [wordSize]
  unfold usub
  rw [hw] at hd ⊢
  omega

/-- The pins, the latch, the events and the holds of a pass depend on the timestamps only
through the elapsed time. -/
theorem loop_congr (now now' : Nat) (irq : Bool) (s s' : State)
    (he : elapsedAt now s = elapsedAt now' s') (h1 : s.pins = s'.pins) (h2 : s.flag = s'.flag)
    (h3 : s.log = s'.log) (h4 : s.holdPins = s'.holdPins) :
    (loop now irq s).pins = (loop now' irq s').pins ∧
      (loop now irq s).flag = (loop now' irq s').flag ∧
      (loop now irq s).log = (loop now' irq s').log ∧
      (loop now irq s).holdPins = (loop now' irq s').holdPins := by
  rcases window_cases (elapsedAt now s) with ⟨i, hi⟩ | ⟨i, hi⟩ | hi | hi
  · rw [loop_through i now irq s hi, loop_through i now' irq s' (he ▸ hi)]
    refine ⟨?_, ?_, ?_, ?_⟩
    · exact sig_pins_congr i _ _ h1
    · rw [sig_flag, sig_flag]
      exact h2
    · rw [sig_log, sig_log]
      exact congrArg (fun l => l ++ sigEvents i) h3
    · rw [sig_holdPins, sig_holdPins]
      exact h4
  · cases hf : s.flag
    · have hf' : s'.flag = false := by rw [← h2]; exact hf
      rw [loop_caution_clear i now irq s hi hf, loop_caution_clear i now' irq s' (he ▸ hi) hf']
      refine ⟨?_, ?_, ?_, ?_⟩
      · funext q
        simp [h1]
      · simp [h2]
      · simp [h3]
      · simp [h4]
    · have hf' : s'.flag = true := by rw [← h2]; exact hf
      rw [loop_caution_set i now irq s hi hf, loop_caution_set i now' irq s' (he ▸ hi) hf']
      refine ⟨?_, ?_, ?_, ?_⟩
      · funext q
        fin_cases i <;> cases irq <;> simp [service, sig1, goPin, signal, h1]
      · fin_cases i <;> simp [service]
      · fin_cases i <;> cases irq <;> simp [service, sig1, goPin, signal, h3]
      · fin_cases i <;> simp [service, sig1, goPin, signal, h4] <;> (funext q; simp [h1])
  · rw [loop_idle now irq s hi, loop_idle now' irq s' (he ▸ hi)]
    exact ⟨h1, h2, h3, h4⟩
  · rw [loop_reset now irq s hi, loop_reset now' irq s' (he ▸ hi)]
    exact ⟨h1, h2, congrArg (fun l => l ++ [Event.println "#reset"]) h3, h4⟩


/-- The pass prints the reset text exactly when the elapsed time exceeds 28000. -/
theorem reset_iff_printed (now : Nat) (irq : Bool) (s : State) :
    Event.println "#reset" ∈ emitted now irq s ↔ 28000 < elapsedAt now s := by
  have k1 : ∀ b : Fin 4, Event.println "#reset" ∉ sigEvents b := by decide
  have k2 : ∀ b : Fin 4, Event.println "#reset" ∉ clearEvents b := by decide
  have k3 : ∀ (b : Fin 4) (q : Bool), Event.println "#reset" ∉ serviceEvents b q := by decide
  rcases emitted_cases now irq s with ⟨j, hj, he⟩ | ⟨j, hj, he | he⟩ | ⟨hj, he⟩ | ⟨hj, he⟩
  · rw [he]
    rw [takesThrough_val] at hj
    have bj := j.isLt
    exact ⟨fun h => (k1 j h).elim, fun h => by omega⟩
  · rw [he]
    rw [takesCaution_val] at hj
    have bj := j.isLt
    exact ⟨fun h => (k2 j h).elim, fun h => by omega⟩
  · rw [he]
    rw [takesCaution_val] at hj
    have bj := j.isLt
    exact ⟨fun h => (k3 j irq h).elim, fun h => by omega⟩
  · rw [he]
    exact ⟨fun h => (List.not_mem_nil _ h).elim, fun h => by omega⟩
  · rw [he]
    exact ⟨fun _ => hj, fun _ => List.mem_singleton.2 rfl⟩

theorem loop_caution_set_prevTime (i : Fin 4) (now : Nat) (irq : Bool) (s : State)
    (h : takesCaution i (elapsedAt now s)) (hf : s.flag = true) :
    (loop now irq s).prevTime = s.prevTime := by
  rw [loop_caution_set i now irq s h hf]
  show (service i irq (sample now s)).prevTime = s.prevTime
  rw [service_prevTime]
  rfl

/-- Unsigned subtraction after the timestamp has advanced by `d`, wraparound included. -/
theorem usub_add (a d p : Nat) : usub (a + d) p = (usub a p + d) % wordSize := by
  have hw : wordSize = 4294967296 := by norm_num [wordSize]
  unfold usub
  rw [hw]
  omega

theorem elapsedAt_add (now d : Nat) (s t : State) (h : t.prevTime = s.prevTime) :
    elapsedAt (now + d) t = (elapsedAt now s + d) % wordSize := by
  unfold elapsedAt
  rw [h, usub_add]

theorem emitted_through (i : Fin 4) (now : Nat) (irq : Bool) (s : State)
    (h : takesThrough i (elapsedAt now s)) : emitted now irq s = sigEvents i :=
  (takesThrough_iff_events i now irq s).1 h

theorem emitted_caution_clear (i : Fin 4) (now : Nat) (irq : Bool) (s : State)
    (h : takesCaution i (elapsedAt now s)) (hf : s.flag = false) :
    emitted now irq s = clearEvents i :=
  emitted_eq (by rw [loop_caution_clear i now irq s h hf]; simp [clearEvents])

theorem emitted_caution_set (i : Fin 4) (now : Nat) (irq : Bool) (s : State)
    (h : takesCaution i (elapsedAt now s)) (hf : s.flag = true) :
    emitted now irq s = serviceEvents i irq :=
  emitted_eq (loop_caution_set_log i now irq s h hf)

/-- The state function of approach `i` is called by a pass exactly when the pass takes the
through branch of approach `i`, or, for approach 0, when it services an emergency in some
intermediate branch. -/
theorem calls_iff (i : Fin 4) (now : Nat) (irq : Bool) (s : State) :
    calls i (emitted now irq s) ↔
      takesThrough i (elapsedAt now s) ∨
        (i = 0 ∧ s.flag = true ∧ ∃ j : Fin 4, takesCaution j (elapsedAt now s)) := by
  have k1 : ∀ a b : Fin 4, calls a (sigEvents b) ↔ a = b := by decide
  have k2 : ∀ a b : Fin 4, ¬ calls a (clearEvents b) := by decide
  have k3 : ∀ (a b : Fin 4) (q : Bool), calls a (serviceEvents b q) ↔ a = 0 := by decide
  have k4 : ∀ a : Fin 4, ¬ calls a [] ∧ ¬ calls a [Event.println "#reset"] := by decide
  have bi := i.isLt
  rcases window_cases (elapsedAt now s) with ⟨j, hj⟩ | ⟨j, hj⟩ | hj | hj
  · rw [emitted_through j now irq s hj, k1]
    constructor
    · intro h
      exact Or.inl (h ▸ hj)
    · rintro (h | ⟨_, _, k, hk⟩)
      · exact through_unique h hj
      · exact (through_not_caution hj hk).elim
  · cases hf : s.flag
    · rw [emitted_caution_clear j now irq s hj hf]
      constructor
      · intro h
        exact (k2 i j h).elim
      · rintro (h | ⟨_, h, _⟩)
        · exact (through_not_caution h hj).elim
        · exact Bool.noConfusion h
    · rw [emitted_caution_set j now irq s hj hf, k3]
      constructor
      · intro h
        exact Or.inr ⟨h, rfl, j, hj⟩
      · rintro (h | ⟨h, _, _⟩)
        · exact (through_not_caution h hj).elim
        · exact h
  · have hm : emitted now irq s = [] := emitted_eq (by rw [loop_idle now irq s hj]; simp)
    rw [hm]
    constructor
    · intro h
      exact ((k4 i).1 h).elim
    · rintro (h | ⟨_, _, k, hk⟩)
      · rw [takesThrough_val] at h
        omega
      · rw [takesCaution_val] at hk
        have bk := k.isLt
        omega
  · have hm : emitted now irq s = [Event.println "#reset"] :=
      emitted_eq (by rw [loop_reset now irq s hj]; rfl)
    rw [hm]
    constructor
    · intro h
      exact ((k4 i).2 h).elim
    · rintro (h | ⟨_, _, k, hk⟩)
      · rw [takesThrough_val] at h
        omega
      · rw [takesCaution_val] at hk
        have bk := k.isLt
        omega

/-- Value of `prevTime` after a pass: the clock sample when the elapsed time exceeds 28000,
the old value otherwise. -/
theorem loop_prevTime (now : Nat) (irq : Bool) (s : State) :
    (loop now irq s).prevTime =
      if 28000 < elapsedAt now s then now % wordSize else s.prevTime := by
  rcases window_cases (elapsedAt now s) with ⟨i, hi⟩ | ⟨i, hi⟩ | hi | hi
  · have hn : ¬ 28000 < elapsedAt now s := by
      rw [takesThrough_val] at hi
      have bi := i.isLt
      omega
    rw [if_neg hn, loop_through i now irq s hi, sig_prevTime]
    rfl
  · have hn : ¬ 28000 < elapsedAt now s := by
      rw [takesCaution_val] at hi
      have bi := i.isLt
      omega
    rw [if_neg hn]
    cases hf : s.flag
    · rw [loop_caution_clear i now irq s hi hf]
      rfl
    · exact loop_caution_set_prevTime i now irq s hi hf
  · have hn : ¬ 28000 < elapsedAt now s := by omega
    rw [if_neg hn, loop_idle now irq s hi]
    rfl
  · rw [if_pos hi, loop_reset now irq s hi]
    rfl

theorem loop_currTime (now : Nat) (irq : Bool) (s : State) :
    (loop now irq s).currTime = now % wordSize := by
  rcases window_cases (elapsedAt now s) with ⟨i, hi⟩ | ⟨i, hi⟩ | hi | hi
  · rw [loop_through i now irq s hi, sig_currTime]
    rfl
  · cases hf : s.flag
    · rw [loop_caution_clear i now irq s hi hf]
      rfl
    · rw [loop_caution_set i now irq s hi hf]
      show (service i irq (sample now s)).currTime = now % wordSize
      unfold service
      split <;> simp [sig1]
  · rw [loop_idle now irq s hi]
    rfl
  · rw [loop_reset now irq s hi]
    rfl

/-! ## The claims -/

/-- C1: at elapsed time 7000, which lies in `[0, 28000)`, a pass of `loop` selects none of the
eight windows: no through and no intermediate condition holds, nothing is written or printed
and every pin keeps its level. -/
theorem C1_no_window_at_7000 :
    elapsedAt 7000 initState = 7000 ∧
      (∀ i : Fin 4, ¬ takesThrough i 7000 ∧ ¬ takesCaution i 7000) ∧
      emitted 7000 false initState = [] ∧
      (loop 7000 false initState).holdPins.length = 0 ∧
      ∀ j : Fin 4, go j (loop 7000 false initState).pins = false ∧
        stop j (loop 7000 false initState).pins = false := by
  refine ⟨by decide, by decide, by decide, by decide, by decide⟩

/-- C2: at elapsed time 7000, inside `[1*(T+Y), 1*(T+Y)+T)`, the pass does not take the through
branch of approach 1 (it does nothing); at elapsed time 12000, inside
`[1*(T+Y)+T, 2*(T+Y))`, the pass takes the through branch of approach 1 (it calls `sig2`) and
not its intermediate branch. -/
theorem C2_boundaries_7000_12000 :
    (1 * (redDelay + yellowDelay) ≤ 7000 ∧ 7000 < 1 * (redDelay + yellowDelay) + redDelay) ∧
      ¬ takesThrough 1 (elapsedAt 7000 initState) ∧
      emitted 7000 false initState = [] ∧
      (1 * (redDelay + yellowDelay) + redDelay ≤ 12000 ∧
        12000 < (1 + 1) * (redDelay + yellowDelay)) ∧
      takesThrough 1 (elapsedAt 12000 initState) ∧
      ¬ takesCaution 1 (elapsedAt 12000 initState) ∧
      emitted 12000 false initState = sigEvents 1 := by
  refine ⟨by decide, by decide, by decide, by decide, by decide, by decide, by decide⟩

/-- C3, as stated, fails: driving the pattern of approach 0 (`sig1`) right after the pattern of
approach 1 (`sig2`) leaves the Go output of approach 1 asserted, so approach 1 does not show
Stop. -/
theorem C3_counterexample :
    go 1 (sig 0 (sig 1 initState)).pins = true ∧
      ¬ showsStop 1 (sig 0 (sig 1 initState)).pins := by
  unfold showsStop
  decide

/-- C3, amended: after the through pattern of approach `i` has been driven, from any pin state,
approach `i` shows Go, and every other approach has its Stop output asserted and its Go output
unchanged; hence every other approach whose Go output was de-asserted shows Stop. -/
theorem C3_through_pattern (i : Fin 4) (s : State) :
    showsGo i (sig i s).pins ∧
      ∀ j : Fin 4, j ≠ i →
        stop j (sig i s).pins = true ∧ go j (sig i s).pins = go j s.pins ∧
          (go j s.pins = false → showsStop j (sig i s).pins) := by
  refine ⟨⟨by simp [sig_go], by simp [sig_stop]⟩, ?_⟩
  intro j hj
  have h1 : stop j (sig i s).pins = true := by simp [sig_stop, hj]
  have h2 : go j (sig i s).pins = go j s.pins := by simp [sig_go, hj]
  exact ⟨h1, h2, fun h => ⟨h1, h2.trans h⟩⟩

/-- C3, amended, at approach 0 from the initial state: approach 0 shows Go and approach 1 shows
Stop. -/
theorem C3_through_pattern_witness :
    (1 : Fin 4) ≠ 0 ∧ go 1 initState.pins = false ∧
      showsGo 0 (sig 0 initState).pins ∧ showsStop 1 (sig 0 initState).pins :=
  ⟨by decide, rfl, (C3_through_pattern 0 initState).1,
    ((C3_through_pattern 0 initState).2 1 (by decide)).2.2 rfl⟩

/-- C4: in every run that starts from the state after `setup()` (all outputs de-asserted,
latch clear), in which the passes of `loop` are entered at non-decreasing timestamps, each less
than 2000 ms after the previous pass plus the time that pass spent in `delay`, and in which
the button interrupt may fire before any pass and during any hold: after the last pass at most
one approach has Go asserted, every hold of the run had at most one Go asserted, and if the
last pass takes the through branch of approach `i` then exactly approach `i` has Go
asserted.  Every pass of a run is the last pass of a prefix, which is again such a run. -/
theorem C4_at_most_one_go (steps : List Step) (st : Step)
    (h : paced initState 0 wordSize (steps ++ [st]) = true) :
    atMostOneGo (run initState (steps ++ [st])).pins ∧
      (∀ p ∈ (run initState (steps ++ [st])).holdPins, atMostOneGo p) ∧
      ∀ i : Fin 4, takesThrough i (elapsedAt st.now (run initState steps)) →
        ∀ j : Fin 4, go j (run initState (steps ++ [st])).pins = true ↔ j = i := by
  obtain ⟨r1, r2⟩ := paced_run_inv steps st initState 0 wordSize inv_initState
    (by rintro ⟨j, hj⟩; exact absurd hj (by revert j; decide)) h
  exact ⟨inv_atMostOneGo r1, r1.2.2, r2⟩

/-- C4 on a run of five passes: through window of approach 0 at 100, 2000 and 3900 ms (button
pressed before the third), serviced emergency at 5100 ms (button pressed again during the
hold), through window of approach 1 at 8200 ms. -/
theorem C4_at_most_one_go_witness :
    paced initState 0 wordSize
        ([⟨false, 100, false⟩, ⟨false, 2000, false⟩, ⟨true, 3900, false⟩, ⟨false, 5100, true⟩] ++
          [⟨false, 8200, false⟩]) = true ∧
      atMostOneGo (run initState
        ([⟨false, 100, false⟩, ⟨false, 2000, false⟩, ⟨true, 3900, false⟩, ⟨false, 5100, true⟩] ++
          [⟨false, 8200, false⟩])).pins ∧
      ∀ p ∈ (run initState
        ([⟨false, 100, false⟩, ⟨false, 2000, false⟩, ⟨true, 3900, false⟩, ⟨false, 5100, true⟩] ++
          [⟨false, 8200, false⟩])).holdPins, atMostOneGo p :=
  ⟨by decide,
    (C4_at_most_one_go
      [⟨false, 100, false⟩, ⟨false, 2000, false⟩, ⟨true, 3900, false⟩, ⟨false, 5100, true⟩]
      ⟨false, 8200, false⟩ (by decide)).1,
    (C4_at_most_one_go
      [⟨false, 100, false⟩, ⟨false, 2000, false⟩, ⟨true, 3900, false⟩, ⟨false, 5100, true⟩]
      ⟨false, 8200, false⟩ (by decide)).2.1⟩

/-- C5: in each of the four intermediate windows (elapsed 5500, 12500, 19500, 26500) a pass
that services a pending emergency holds with the Go output of approach 0 (road 1) asserted,
while approach 2 (road 3) has its Go output de-asserted and its Stop output asserted. -/
theorem C5_grant_drives_road_1 :
    [5500, 12500, 19500, 26500].map (fun now =>
      (loop now false (button_ISR initState)).holdPins.map
        (fun p => (go 0 p, go 2 p, stop 2 p))) =
      [[(true, false, true)], [(true, false, true)], [(true, false, true)],
        [(true, false, true)]] := by
  decide

/-- C6, as stated, fails: in `lateRun` the pass at 35500 ms is in the intermediate branch of
approach 0 with the latch set, and during its hold the Go outputs of approach 0 and of
approach 1 are both asserted. -/
theorem C6_counterexample :
    takesCaution 0 (elapsedAt 35500 lateRun) ∧ lateRun.flag = true ∧
      (loop 35500 false lateRun).holdPins.map (fun p => (go 0 p, go 1 p)) = [(true, true)] := by
  refine ⟨by decide, by decide, by decide⟩

/-- C6, amended: a pass that takes the intermediate branch of approach `i` with the latch set
returns with the latch clear, performs exactly one `delay`, of 3000 ms, and asserts exactly one
Go output, that of the granted approach `g`, exactly once; `g` has Go asserted during the hold,
and when no approach other than `i` had Go asserted on entry, no other approach has Go
asserted during the hold. -/
theorem C6_service_once (i : Fin 4) (now : Nat) (irq : Bool) (s : State)
    (h : takesCaution i (elapsedAt now s)) (hf : s.flag = true) :
    (loop now irq s).flag = false ∧
      delays (emitted now irq s) = [3000] ∧
      ∃ g : Fin 4, goGrants (emitted now irq s) = [goPin g] ∧
        ∃ p : Pins, (loop now irq s).holdPins = s.holdPins ++ [p] ∧ go g p = true ∧
          ((∀ j : Fin 4, j ≠ i → go j s.pins = false) → ∀ j : Fin 4, go j p = true → j = g) := by
  have hlog := emitted_eq (loop_caution_set_log i now irq s h hf)
  refine ⟨loop_caution_set_flag i now irq s h hf, ?_, 0, ?_, holdLevels i s,
    loop_caution_set_holdPins i now irq s h hf, ?_, ?_⟩
  · rw [hlog, serviceEvents_delays]
  · rw [hlog, serviceEvents_goGrants]
  · simp [holdLevels_go]
  · intro hgo j hj
    by_contra hne
    rw [holdLevels_go, if_neg hne] at hj
    by_cases hji : j = i
    · simp [hji] at hj
    · rw [if_neg hji, hgo j hji] at hj
      exact Bool.noConfusion hj

/-- C6, amended, at the intermediate window of approach 1 (elapsed 12500) after a button
press in the initial state. -/
theorem C6_service_once_witness :
    takesCaution 1 (elapsedAt 12500 (button_ISR initState)) ∧
      (button_ISR initState).flag = true ∧
      (loop 12500 false (button_ISR initState)).flag = false ∧
      delays (emitted 12500 false (button_ISR initState)) = [3000] :=
  ⟨by decide, rfl,
    (C6_service_once 1 12500 false (button_ISR initState) (by decide) rfl).1,
    (C6_service_once 1 12500 false (button_ISR initState) (by decide) rfl).2.1⟩

/-- C7: when the pass takes no intermediate branch, a set latch stays set, no `delay` is
performed, the events (pin writes included), the final pin levels and the recorded holds are
those of the same pass with the latch clear, and whatever the latch was on entry it is
unchanged on return (so the latch is cleared only inside an intermediate branch). -/
theorem C7_latch_ignored_outside_caution (now : Nat) (irq : Bool) (s : State)
    (h : ∀ i : Fin 4, ¬ takesCaution i (elapsedAt now s)) :
    (loop now irq (setFlag true s)).flag = true ∧
      delays (emitted now irq (setFlag true s)) = [] ∧
      emitted now irq (setFlag true s) = emitted now irq (setFlag false s) ∧
      (loop now irq (setFlag true s)).pins = (loop now irq (setFlag false s)).pins ∧
      (loop now irq (setFlag true s)).holdPins = (loop now irq (setFlag false s)).holdPins ∧
      (loop now irq s).flag = s.flag := by
  have eT : elapsedAt now (setFlag true s) = elapsedAt now s := rfl
  have eF : elapsedAt now (setFlag false s) = elapsedAt now s := rfl
  rcases window_cases (elapsedAt now s) with ⟨i, hi⟩ | ⟨i, hi⟩ | hi | hi
  · have lT := loop_through i now irq (setFlag true s) (eT ▸ hi)
    have lF := loop_through i now irq (setFlag false s) (eF ▸ hi)
    have mT : emitted now irq (setFlag true s) = sigEvents i :=
      emitted_eq (by rw [lT, sig_log]; rfl)
    have mF : emitted now irq (setFlag false s) = sigEvents i :=
      emitted_eq (by rw [lF, sig_log]; rfl)
    refine ⟨by rw [lT, sig_flag]; rfl, by rw [mT, sigEvents_delays], by rw [mT, mF], ?_, ?_, ?_⟩
    · rw [lT, lF]
      exact sig_pins_congr i _ _ rfl
    · rw [lT, lF, sig_holdPins, sig_holdPins]
      rfl
    · rw [loop_through i now irq s hi, sig_flag]
      rfl
  · exact absurd hi (h i)
  · have lT := loop_idle now irq (setFlag true s) (eT ▸ hi)
    have lF := loop_idle now irq (setFlag false s) (eF ▸ hi)
    have mT : emitted now irq (setFlag true s) = [] := emitted_eq (by rw [lT]; simp)
    have mF : emitted now irq (setFlag false s) = [] := emitted_eq (by rw [lF]; simp)
    refine ⟨by rw [lT]; rfl, by rw [mT]; rfl, by rw [mT, mF], by rw [lT, lF]; rfl,
      by rw [lT, lF]; rfl, by rw [loop_idle now irq s hi]; rfl⟩
  · have lT := loop_reset now irq (setFlag true s) (eT ▸ hi)
    have lF := loop_reset now irq (setFlag false s) (eF ▸ hi)
    have mT : emitted now irq (setFlag true s) = [Event.println "#reset"] :=
      emitted_eq (by rw [lT]; rfl)
    have mF : emitted now irq (setFlag false s) = [Event.println "#reset"] :=
      emitted_eq (by rw [lF]; rfl)
    refine ⟨by rw [lT]; rfl, by rw [mT]; rfl, by rw [mT, mF], by rw [lT, lF]; rfl,
      by rw [lT, lF]; rfl, by rw [loop_reset now irq s hi]; rfl⟩

/-- C7 at elapsed time 500, inside the through window of approach 0, from the initial state. -/
theorem C7_latch_ignored_outside_caution_witness :
    (∀ i : Fin 4, ¬ takesCaution i (elapsedAt 500 initState)) ∧
      (loop 500 false (setFlag true initState)).flag = true ∧
      delays (emitted 500 false (setFlag true initState)) = [] ∧
      emitted 500 false (setFlag true initState) = emitted 500 false (setFlag false initState) :=
  ⟨by decide,
    (C7_latch_ignored_outside_caution 500 false initState (by decide)).1,
    (C7_latch_ignored_outside_caution 500 false initState (by decide)).2.1,
    (C7_latch_ignored_outside_caution 500 false initState (by decide)).2.2.1⟩

/-- C8, as stated, fails: the button is pressed, the pass at elapsed time 12500 services the
emergency, the interrupt fires again during its `delay(3000)`, and the latch is clear when the
pass returns. -/
theorem C8_counterexample :
    takesCaution 1 (elapsedAt 12500 (button_ISR initState)) ∧
      (button_ISR initState).flag = true ∧
      (emitted 12500 true (button_ISR initState)).drop 7 =
        [Event.delay 3000, Event.println "////////////Interrupt////////////////////",
          Event.write ledPin HIGH, Event.write (signal1 1) LOW, Event.write (signal2 1) LOW,
          Event.println "#2 wait"] ∧
      (loop 12500 true (button_ISR initState)).flag = false := by
  refine ⟨by decide, by decide, by decide, by decide⟩

/-- C8, amended: when the interrupt fires during the `delay(3000)` of a pass that services an
emergency, the latch is clear when the pass returns; the pass still holds exactly once, asserts
exactly one Go output once, and leaves every pin except the built-in LED as the same pass
without the interrupt does. -/
theorem C8_request_during_hold_absorbed (i : Fin 4) (now : Nat) (s : State)
    (h : takesCaution i (elapsedAt now s)) (hf : s.flag = true) :
    (loop now true s).flag = false ∧
      delays (emitted now true s) = [3000] ∧
      (∃ g : Fin 4, goGrants (emitted now true s) = [goPin g]) ∧
      ∀ q : Nat, q ≠ ledPin → (loop now true s).pins q = (loop now false s).pins q := by
  have hlog := emitted_eq (loop_caution_set_log i now true s h hf)
  refine ⟨loop_caution_set_flag i now true s h hf, by rw [hlog, serviceEvents_delays],
    ⟨0, by rw [hlog, serviceEvents_goGrants]⟩, ?_⟩
  intro q hq
  rw [loop_caution_set i now true s h hf, loop_caution_set i now false s h hf]
  fin_cases i <;> simp [service, sig1, goPin, signal, hq]

/-- C8, amended, at the intermediate window of approach 1 (elapsed 12500) after a button
press in the initial state. -/
theorem C8_request_during_hold_absorbed_witness :
    takesCaution 1 (elapsedAt 12500 (button_ISR initState)) ∧
      (button_ISR initState).flag = true ∧
      (loop 12500 true (button_ISR initState)).flag = false :=
  ⟨by decide, rfl,
    (C8_request_during_hold_absorbed 1 12500 (button_ISR initState) (by decide) rfl).1⟩

/-- C10: at elapsed time exactly 28000 a pass of `loop` does not reset the cycle: `prevTime`
keeps its value, nothing is printed, and the elapsed time at the same timestamp is still
28000. -/
theorem C10_no_reset_at_28000 :
    elapsedAt 28000 initState = 28000 ∧
      (loop 28000 false initState).currTime = 28000 ∧
      (loop 28000 false initState).prevTime = 0 ∧
      emitted 28000 false initState = [] ∧
      elapsedAt 28000 (loop 28000 false initState) = 28000 := by
  refine ⟨by decide, by decide, by decide, by decide, by decide⟩

/-- C11: when the elapsed time is below 28000, a pass of `loop` leaves `prevTime` unchanged,
for every pin state and either latch value; in particular a pass that services an emergency
blocks for 3000 ms and still leaves `prevTime` unchanged. -/
theorem C11_prevTime_kept (now : Nat) (irq : Bool) (s : State)
    (h : elapsedAt now s < 28000) :
    (loop now irq s).prevTime = s.prevTime ∧
      (s.flag = true → (∃ i : Fin 4, takesCaution i (elapsedAt now s)) →
        delays (emitted now irq s) = [3000] ∧ (loop now irq s).prevTime = s.prevTime) := by
  have main : (loop now irq s).prevTime = s.prevTime := by
    rcases window_cases (elapsedAt now s) with ⟨i, hi⟩ | ⟨i, hi⟩ | hi | hi
    · rw [loop_through i now irq s hi, sig_prevTime]
      rfl
    · cases hf : s.flag
      · rw [loop_caution_clear i now irq s hi hf]
        rfl
      · rw [loop_caution_set i now irq s hi hf]
        show (service i irq (sample now s)).prevTime = s.prevTime
        rw [service_prevTime]
        rfl
    · rw [loop_idle now irq s hi]
      rfl
    · omega
  refine ⟨main, ?_⟩
  rintro hf ⟨i, hi⟩
  exact ⟨by rw [emitted_eq (loop_caution_set_log i now irq s hi hf), serviceEvents_delays], main⟩

/-- C11 at the intermediate window of approach 2 (elapsed 19500) after a button press in the
initial state: the pass blocks for 3000 ms and `prevTime` is still 0. -/
theorem C11_prevTime_kept_witness :
    elapsedAt 19500 (button_ISR initState) < 28000 ∧
      (loop 19500 false (button_ISR initState)).prevTime = (button_ISR initState).prevTime ∧
      delays (emitted 19500 false (button_ISR initState)) = [3000] :=
  ⟨by decide, (C11_prevTime_kept 19500 false (button_ISR initState) (by decide)).1,
    ((C11_prevTime_kept 19500 false (button_ISR initState) (by decide)).2 rfl
      ⟨2, by decide⟩).1⟩

/-- C12: when the elapsed time matches none of the eight window conditions of `loop`, the pass
writes no pin, performs no `delay` and leaves the pin levels and the latch unchanged; the only
change besides the clock sample is the reset of `prevTime`, which happens when the elapsed
time exceeds 28000.  Every elapsed time of 28000 or more matches none of the conditions. -/
theorem C12_no_default_grant (now : Nat) (irq : Bool) (s : State)
    (h : ∀ i : Fin 4, ¬ takesThrough i (elapsedAt now s) ∧ ¬ takesCaution i (elapsedAt now s)) :
    (loop now irq s).pins = s.pins ∧
      (loop now irq s).flag = s.flag ∧
      (loop now irq s).holdPins = s.holdPins ∧
      (∀ (pin : Nat) (v : Bool), Event.write pin v ∉ emitted now irq s) ∧
      (∀ ms : Nat, Event.delay ms ∉ emitted now irq s) ∧
      ((loop now irq s).prevTime = s.prevTime ∨
        (28000 < elapsedAt now s ∧ (loop now irq s).prevTime = (loop now irq s).currTime)) ∧
      ∀ e : Nat, 28000 ≤ e → ∀ i : Fin 4, ¬ takesThrough i e ∧ ¬ takesCaution i e := by
  have last : ∀ e : Nat, 28000 ≤ e → ∀ i : Fin 4, ¬ takesThrough i e ∧ ¬ takesCaution i e := by
    intro e he i
    rw [takesThrough_val, takesCaution_val]
    have bi := i.isLt
    constructor <;> omega
  rcases window_cases (elapsedAt now s) with ⟨i, hi⟩ | ⟨i, hi⟩ | hi | hi
  · exact absurd hi (h i).1
  · exact absurd hi (h i).2
  · have hl := loop_idle now irq s hi
    have hm : emitted now irq s = [] := emitted_eq (by rw [hl]; simp)
    refine ⟨by rw [hl]; rfl, by rw [hl]; rfl, by rw [hl]; rfl, ?_, ?_, Or.inl (by rw [hl]; rfl),
      last⟩
    · intro pin v hmem
      rw [hm] at hmem
      cases hmem
    · intro ms hmem
      rw [hm] at hmem
      cases hmem
  · have hl := loop_reset now irq s hi
    have hm : emitted now irq s = [Event.println "#reset"] := emitted_eq (by rw [hl]; rfl)
    refine ⟨by rw [hl]; rfl, by rw [hl]; rfl, by rw [hl]; rfl, ?_, ?_,
      Or.inr ⟨hi, by rw [hl]; rfl⟩, last⟩
    · intro pin v hmem
      rw [hm] at hmem
      simp at hmem
    · intro ms hmem
      rw [hm] at hmem
      simp at hmem

/-- C12 at elapsed time 40000 with the latch set and road 2 showing Go: the pins and the latch
are unchanged and `prevTime` is reset. -/
theorem C12_no_default_grant_witness :
    (∀ i : Fin 4, ¬ takesThrough i (elapsedAt 40000 (button_ISR (sig2 initState))) ∧
        ¬ takesCaution i (elapsedAt 40000 (button_ISR (sig2 initState)))) ∧
      (loop 40000 false (button_ISR (sig2 initState))).pins = (button_ISR (sig2 initState)).pins ∧
      (loop 40000 false (button_ISR (sig2 initState))).flag = (button_ISR (sig2 initState)).flag :=
  ⟨by decide, (C12_no_default_grant 40000 false (button_ISR (sig2 initState)) (by decide)).1,
    (C12_no_default_grant 40000 false (button_ISR (sig2 initState)) (by decide)).2.1⟩

/-- C13: for every `prevTime` (in particular every one below `2 ^ 32`) and every true elapsed
duration `d < 2 ^ 32`, at the wrapped timestamp `(prevTime + d) mod 2 ^ 32` the difference
`currTime - prevTime` computed by `loop` is `d`; hence the same through, intermediate and
reset conditions hold as for elapsed time `d`, and the pass emits the same events and leaves
the same pins, latch and holds as the pass at timestamp `d` with `prevTime = 0`. -/
theorem C13_wraparound_elapsed (d : Nat) (irq : Bool) (s : State) (hd : d < wordSize) :
    usub ((s.prevTime + d) % wordSize) s.prevTime = d ∧
      elapsedAt ((s.prevTime + d) % wordSize) s = d ∧
      (∀ i : Fin 4,
        (takesThrough i (elapsedAt ((s.prevTime + d) % wordSize) s) ↔ takesThrough i d) ∧
          (takesCaution i (elapsedAt ((s.prevTime + d) % wordSize) s) ↔ takesCaution i d)) ∧
      (Event.println "#reset" ∈ emitted ((s.prevTime + d) % wordSize) irq s ↔ 28000 < d) ∧
      emitted ((s.prevTime + d) % wordSize) irq s = emitted d irq { s with prevTime := 0 } ∧
      (loop ((s.prevTime + d) % wordSize) irq s).pins =
        (loop d irq { s with prevTime := 0 }).pins ∧
      (loop ((s.prevTime + d) % wordSize) irq s).flag =
        (loop d irq { s with prevTime := 0 }).flag ∧
      (loop ((s.prevTime + d) % wordSize) irq s).holdPins =
        (loop d irq { s with prevTime := 0 }).holdPins := by
  have h0 : usub ((s.prevTime + d) % wordSize) s.prevTime = d := usub_add_mod s.prevTime d hd
  have h1 : elapsedAt ((s.prevTime + d) % wordSize) s = d := h0
  have h2 : elapsedAt d { s with prevTime := 0 } = d := usub_zero d hd
  obtain ⟨c1, c2, c3, c4⟩ := loop_congr ((s.prevTime + d) % wordSize) d irq s
    { s with prevTime := 0 } (h1.trans h2.symm) rfl rfl rfl rfl
  refine ⟨h0, h1, ?_, ?_, ?_, c1, c2, c4⟩
  · intro i
    rw [h1]
    exact ⟨Iff.rfl, Iff.rfl⟩
  · rw [reset_iff_printed, h1]
  · unfold emitted
    rw [c3]

/-- C13 with `prevTime = 2 ^ 32 - 296` and `d = 5500`: the timestamp has wrapped to 5204 and
the elapsed time computed is 5500. -/
theorem C13_wraparound_elapsed_witness :
    (5500 < wordSize) ∧
      (({ initState with prevTime := 4294967000 } : State).prevTime + 5500) % wordSize = 5204 ∧
      elapsedAt ((({ initState with prevTime := 4294967000 } : State).prevTime + 5500) % wordSize)
        { initState with prevTime := 4294967000 } = 5500 :=
  ⟨by decide, by decide,
    (C13_wraparound_elapsed 5500 false { initState with prevTime := 4294967000 } (by decide)).2.1⟩

/-- C14: `button_ISR` is idempotent on the controller state: applied twice it leaves the same
latch, `prevTime` and pin levels as applied once; after it the latch is set; it does not
change `prevTime` nor the level of any traffic-signal pin, its only pin write being to the
built-in LED, which is none of the traffic-signal pins. -/
theorem C14_button_ISR_idempotent (s : State) :
    (button_ISR (button_ISR s)).flag = (button_ISR s).flag ∧
      (button_ISR (button_ISR s)).prevTime = (button_ISR s).prevTime ∧
      (button_ISR (button_ISR s)).pins = (button_ISR s).pins ∧
      (button_ISR s).flag = true ∧
      (button_ISR s).prevTime = s.prevTime ∧
      (∀ j : Fin 4, go j (button_ISR s).pins = go j s.pins ∧
        stop j (button_ISR s).pins = stop j s.pins) ∧
      (button_ISR s).log = s.log ++
        [Event.println "////////////Interrupt////////////////////", Event.write ledPin HIGH] ∧
      ∀ j : Fin 4, ledPin ≠ goPin j ∧ ledPin ≠ stopPin j := by
  refine ⟨rfl, rfl, ?_, rfl, rfl, ?_, button_ISR_log s, by decide⟩
  · funext q
    by_cases hq : q = ledPin <;> simp [hq]
  · intro j
    fin_cases j <;>
      simp [go, stop, goPin, stopPin, signal, signal1, signal2, signal3, signal4, ledPin]

/-- C15: a pass that takes the intermediate branch of approach `i` with the latch clear writes
`LOW` to the Go output of approach `i` and prints, and nothing else: every other pin, the
latch, `prevTime` and the recorded holds are unchanged and no `delay` occurs; if no approach
other than `i` had Go asserted before, no approach has Go asserted afterwards. -/
theorem C15_caution_latch_clear (i : Fin 4) (now : Nat) (irq : Bool) (s : State)
    (h : takesCaution i (elapsedAt now s)) (hf : s.flag = false) :
    (∀ q : Nat, (loop now irq s).pins q = if q = goPin i then LOW else s.pins q) ∧
      (loop now irq s).flag = false ∧
      (loop now irq s).prevTime = s.prevTime ∧
      (loop now irq s).holdPins = s.holdPins ∧
      emitted now irq s = clearEvents i ∧
      delays (emitted now irq s) = [] ∧
      ((∀ j : Fin 4, j ≠ i → go j s.pins = false) →
        ∀ j : Fin 4, go j (loop now irq s).pins = false) := by
  have hl := loop_caution_clear i now irq s h hf
  have hm : emitted now irq s = clearEvents i :=
    emitted_eq (by rw [hl]; simp [clearEvents])
  refine ⟨?_, by rw [hl]; exact hf, by rw [hl]; rfl, by rw [hl]; rfl, hm, ?_, ?_⟩
  · intro q
    rw [hl]
    rfl
  · have hd : ∀ k : Fin 4, delays (clearEvents k) = [] := by decide
    rw [hm]
    exact hd i
  · intro hgo j
    rw [hl, caution_clear_go]
    by_cases hji : j = i
    · simp [hji]
    · rw [if_neg hji]
      exact hgo j hji

/-- C15 at the intermediate window of approach 0 (elapsed 5500) after the through window of
approach 0: afterwards no approach has Go asserted. -/
theorem C15_caution_latch_clear_witness :
    takesCaution 0 (elapsedAt 5500 (loop 100 false initState)) ∧
      (loop 100 false initState).flag = false ∧
      emitted 5500 false (loop 100 false initState) = clearEvents 0 ∧
      (loop 5500 false (loop 100 false initState)).prevTime =
        (loop 100 false initState).prevTime :=
  ⟨by decide, by decide,
    (C15_caution_latch_clear 0 5500 false (loop 100 false initState) (by decide)
      (by decide)).2.2.2.2.1,
    (C15_caution_latch_clear 0 5500 false (loop 100 false initState) (by decide)
      (by decide)).2.2.1⟩

/-- C16, as stated, fails: after a button press, the pass at elapsed time 5500 takes the
intermediate branch of approach 0 with the latch set and calls `sig1` (its events, among them
the `HIGH` write to the Go output of road 1 and the text "#1", are emitted), although the
elapsed time is not below 5000. -/
theorem C16_counterexample :
    takesCaution 0 (elapsedAt 5500 (button_ISR initState)) ∧
      (button_ISR initState).flag = true ∧
      calls 0 (emitted 5500 false (button_ISR initState)) ∧
      Event.write (signal1 1) HIGH ∈ emitted 5500 false (button_ISR initState) ∧
      Event.println "#1" ∈ emitted 5500 false (button_ISR initState) ∧
      ¬ elapsedAt 5500 (button_ISR initState) < 5000 := by
  refine ⟨by decide, by decide, by decide, by decide, by decide, by decide⟩

/-- C16, amended: exact windows of `loop` as written, for every timestamp, latch value and
state, with `e` the elapsed time.  `sig1` is called iff `e < 5000` or the latch is set and `e`
lies in one of the four intermediate windows, and the pass consists of the call of `sig1`
alone iff `e < 5000`.  For `k = 1, 2, 3` the state function of approach `k` is called iff
`7000 k < e ≤ 7000 k + 5000`, and then the pass consists of that call alone.  The pass takes
the intermediate branch of approach 0 (prints its text) iff `5000 ≤ e < 7000`, and of approach
`k = 1, 2, 3` iff `7000 k + 5000 < e < 7000 (k + 1)`.  The reset happens iff `28000 < e`: then
and only then the reset text is printed, and `prevTime` is the clock sample `currTime` after
the pass when `28000 < e` and keeps its value otherwise.  Hence at most one window is
selected; at `e = currwaitTime` (12000, 19000, 26000), where the through and the "wait"
comparison both hold, the through branch is taken; and at `e` in 7000, 14000, 21000, 28000
the pass only samples the clock. -/
theorem C16_exact_windows (now : Nat) (irq : Bool) (s : State) :
    (calls 0 (emitted now irq s) ↔
        elapsedAt now s < 5000 ∨
          (s.flag = true ∧ ∃ j : Fin 4, takesCaution j (elapsedAt now s))) ∧
      (emitted now irq s = sigEvents 0 ↔ elapsedAt now s < 5000) ∧
      (∀ k : Fin 4, k ≠ 0 →
        (calls k (emitted now irq s) ↔
            7000 * k.val < elapsedAt now s ∧ elapsedAt now s ≤ 7000 * k.val + 5000) ∧
          (emitted now irq s = sigEvents k ↔
            7000 * k.val < elapsedAt now s ∧ elapsedAt now s ≤ 7000 * k.val + 5000)) ∧
      (Event.println (waitText 0) ∈ emitted now irq s ↔
        5000 ≤ elapsedAt now s ∧ elapsedAt now s < 7000) ∧
      (∀ k : Fin 4, k ≠ 0 →
        (Event.println (waitText k) ∈ emitted now irq s ↔
          7000 * k.val + 5000 < elapsedAt now s ∧ elapsedAt now s < 7000 * (k.val + 1))) ∧
      (Event.println "#reset" ∈ emitted now irq s ↔ 28000 < elapsedAt now s) ∧
      (loop now irq s).currTime = now % wordSize ∧
      (loop now irq s).prevTime =
        (if 28000 < elapsedAt now s then (loop now irq s).currTime else s.prevTime) ∧
      (∀ i j : Fin 4,
        (takesThrough i (elapsedAt now s) ∨ takesCaution i (elapsedAt now s)) →
        (takesThrough j (elapsedAt now s) ∨ takesCaution j (elapsedAt now s)) → i = j) ∧
      (∀ i j : Fin 4,
        ¬ (takesThrough i (elapsedAt now s) ∧ takesCaution j (elapsedAt now s))) ∧
      (∀ k : Fin 4, k ≠ 0 → elapsedAt now s = currwait k →
        (prevwait k < elapsedAt now s ∧ elapsedAt now s ≤ currwait k) ∧
          (currwait k ≤ elapsedAt now s ∧ elapsedAt now s < currwait k + yellowDelay) ∧
          emitted now irq s = sigEvents k ∧ Event.println (waitText k) ∉ emitted now irq s) ∧
      ((elapsedAt now s = 7000 ∨ elapsedAt now s = 14000 ∨ elapsedAt now s = 21000 ∨
          elapsedAt now s = 28000) →
        loop now irq s = sample now s ∧ emitted now irq s = []) := by
  have val0 : ∀ k : Fin 4, k ≠ 0 → k.val ≠ 0 := fun k hk h => hk (Fin.ext h)
  have thr : ∀ k : Fin 4, k ≠ 0 →
      (takesThrough k (elapsedAt now s) ↔
        7000 * k.val < elapsedAt now s ∧ elapsedAt now s ≤ 7000 * k.val + 5000) := by
    intro k hk
    have h0 := val0 k hk
    rw [takesThrough_val]
    constructor
    · rintro (⟨h, _⟩ | ⟨_, h⟩)
      · exact absurd h h0
      · exact h
    · intro h
      exact Or.inr ⟨h0, h⟩
  refine ⟨?_, ?_, ?_, ?_, ?_, reset_iff_printed now irq s, loop_currTime now irq s, ?_, ?_, ?_,
    ?_, ?_⟩
  · rw [calls_iff, takesThrough_val]
    simp
  · rw [← takesThrough_iff_events, takesThrough_val]
    simp
  · intro k hk
    refine ⟨?_, ?_⟩
    · rw [calls_iff, thr k hk]
      constructor
      · rintro (h | ⟨h, _⟩)
        · exact h
        · exact absurd h hk
      · intro h
        exact Or.inl h
    · rw [← takesThrough_iff_events, thr k hk]
  · rw [← takesCaution_iff_printed, takesCaution_val]
    simp
  · intro k hk
    have h0 := val0 k hk
    rw [← takesCaution_iff_printed, takesCaution_val]
    constructor
    · rintro (⟨h, _⟩ | ⟨_, h1, h2⟩)
      · exact absurd h h0
      · exact ⟨h1, by omega⟩
    · rintro ⟨h1, h2⟩
      exact Or.inr ⟨h0, h1, by omega⟩
  · rw [loop_currTime, loop_prevTime]
  · intro i j hi hj
    rcases hi with hi | hi <;> rcases hj with hj | hj
    · exact through_unique hi hj
    · exact (through_not_caution hi hj).elim
    · exact (through_not_caution hj hi).elim
    · exact caution_unique hi hj
  · rintro i j ⟨hi, hj⟩
    exact through_not_caution hi hj
  · intro k hk hek
    have h0 := val0 k hk
    have bk := k.isLt
    have hc : currwait k = 7000 * k.val + 5000 := by
      simp only [currwait, prevwait, redDelay, yellowDelay]
      omega
    have hp : prevwait k = 7000 * k.val := by
      simp only [prevwait, redDelay, yellowDelay]
      omega
    have hy : yellowDelay = 2000 := rfl
    have ht : takesThrough k (elapsedAt now s) := by
      rw [takesThrough_val]
      exact Or.inr ⟨h0, by omega, by omega⟩
    refine ⟨⟨by omega, by omega⟩, ⟨by omega, by omega⟩,
      (takesThrough_iff_events k now irq s).1 ht, ?_⟩
    intro hmem
    exact through_not_caution ht ((takesCaution_iff_printed k now irq s).2 hmem)
  · intro h
    have hl := loop_idle now irq s h
    exact ⟨hl, emitted_eq (by rw [hl]; simp)⟩

/-- C16, amended, at elapsed time 12000 from the initial state: the through and the "wait"
comparison of approach 1 both hold, `sig2` is called, the pass is that call alone, and
`prevTime` keeps its value. -/
theorem C16_exact_windows_witness :
    (1 : Fin 4) ≠ 0 ∧ elapsedAt 12000 initState = currwait 1 ∧
      calls 1 (emitted 12000 false initState) ∧
      emitted 12000 false initState = sigEvents 1 ∧
      Event.println (waitText 1) ∉ emitted 12000 false initState ∧
      (loop 12000 false initState).prevTime =
        (if 28000 < elapsedAt 12000 initState then (loop 12000 false initState).currTime
          else initState.prevTime) :=
  ⟨by decide, by decide,
    (((C16_exact_windows 12000 false initState).2.2.1 1 (by decide)).1).2 (by decide),
    ((C16_exact_windows 12000 false initState).2.2.2.2.2.2.2.2.2.2.1 1 (by decide)
      (by decide)).2.2.1,
    ((C16_exact_windows 12000 false initState).2.2.2.2.2.2.2.2.2.2.1 1 (by decide)
      (by decide)).2.2.2,
    (C16_exact_windows 12000 false initState).2.2.2.2.2.2.2.1⟩

/-- C17, as stated, fails: after a button press the pass at elapsed time 5000 takes the
intermediate branch of approach 0 and holds for 3000 ms; the earliest next elapsed time, 8000,
lies in the through window of approach 1, whose start 7000 it exceeds by exactly 1000, not by
more than 1000. -/
theorem C17_counterexample :
    takesCaution 0 (elapsedAt 5000 (button_ISR initState)) ∧
      delays (emitted 5000 false (button_ISR initState)) = [3000] ∧
      takesThrough 1 (elapsedAt 5000 (button_ISR initState) + 3000) ∧
      elapsedAt 5000 (button_ISR initState) + 3000 - prevwait 1 = 1000 ∧
      ¬ (1000 < elapsedAt 5000 (button_ISR initState) + 3000 - prevwait 1) := by
  refine ⟨by decide, by decide, by decide, by decide, by decide⟩

/-- C17, amended: a pass entered at any timestamp `now`, wrapped or not, that services an
emergency in the intermediate branch of approach `i` at elapsed time `e` holds for 3000 ms, and
a pass entered 3000 ms later computes the elapsed time `e + 3000`.  That time lies outside
every intermediate window, and past the end of the window of approach `i`.  For `i` in 0..2 it
lies in the through window of approach `i + 1`, at least 1000 ms and less than 3000 ms after
its start, and a pass at that time is the call of the state function of approach `i + 1`.  For
`i = 3` it exceeds 28000, and a pass entered then or later performs the cycle reset: it prints
the reset text and sets `prevTime` to `currTime`, the new clock sample.  No elapsed time from
`e + 3000` on lies in the intermediate window of approach `i`, so no pass entered 3000 ms or
more later (as long as the elapsed time itself stays below `2 ^ 32`) takes that branch
again. -/
theorem C17_after_grant (i : Fin 4) (now : Nat) (irq : Bool) (s : State)
    (h : takesCaution i (elapsedAt now s)) (hf : s.flag = true) :
    delays (emitted now irq s) = [3000] ∧
      elapsedAt (now + 3000) (loop now irq s) = elapsedAt now s + 3000 ∧
      (∀ j : Fin 4, ¬ takesCaution j (elapsedAt now s + 3000)) ∧
      currwait i + yellowDelay < elapsedAt now s + 3000 ∧
      (∀ k : Fin 4, k.val = i.val + 1 →
        takesThrough k (elapsedAt now s + 3000) ∧
          prevwait k + 1000 ≤ elapsedAt now s + 3000 ∧
          elapsedAt now s + 3000 < prevwait k + 3000 ∧
          ∀ q : Bool, emitted (now + 3000) q (loop now irq s) = sigEvents k) ∧
      (i = 3 → 28000 < elapsedAt now s + 3000 ∧
        ∀ (d : Nat) (q : Bool), 3000 ≤ d → elapsedAt now s + d < wordSize →
          Event.println "#reset" ∈ emitted (now + d) q (loop now irq s) ∧
            (loop (now + d) q (loop now irq s)).currTime = (now + d) % wordSize ∧
            (loop (now + d) q (loop now irq s)).prevTime =
              (loop (now + d) q (loop now irq s)).currTime) ∧
      (∀ e : Nat, elapsedAt now s + 3000 ≤ e → ¬ takesCaution i e) ∧
      ∀ (d : Nat) (q : Bool), 3000 ≤ d → elapsedAt now s + d < wordSize →
        elapsedAt (now + d) (loop now irq s) = elapsedAt now s + d ∧
          ¬ takesCaution i (elapsedAt (now + d) (loop now irq s)) ∧
          Event.println (waitText i) ∉ emitted (now + d) q (loop now irq s) := by
  have hprev := loop_caution_set_prevTime i now irq s h hf
  have hw : wordSize = 4294967296 := by norm_num [wordSize]
  have hc := h
  rw [takesCaution_val] at hc
  have bi := i.isLt
  have hnext : ∀ d : Nat, elapsedAt now s + d < wordSize →
      elapsedAt (now + d) (loop now irq s) = elapsedAt now s + d := by
    intro d hd
    rw [elapsedAt_add now d s (loop now irq s) hprev, Nat.mod_eq_of_lt hd]
  have he3 : elapsedAt (now + 3000) (loop now irq s) = elapsedAt now s + 3000 :=
    hnext 3000 (by rw [hw]; omega)
  have hci : currwait i = 7000 * i.val + 5000 := by
    simp only [currwait, prevwait, redDelay, yellowDelay]
    omega
  have hy : yellowDelay = 2000 := rfl
  have later : ∀ e : Nat, elapsedAt now s + 3000 ≤ e → ¬ takesCaution i e := by
    intro e he hce
    rw [takesCaution_val] at hce
    omega
  refine ⟨by rw [emitted_caution_set i now irq s h hf, serviceEvents_delays],
    he3, ?_, by omega, ?_, ?_, later, ?_⟩
  · intro j hj
    rw [takesCaution_val] at hj
    have bj := j.isLt
    omega
  · intro k hk
    have bk := k.isLt
    have hpk : prevwait k = 7000 * k.val := by
      simp only [prevwait, redDelay, yellowDelay]
      omega
    have ht : takesThrough k (elapsedAt now s + 3000) := by
      rw [takesThrough_val]
      omega
    refine ⟨ht, by omega, by omega, ?_⟩
    intro q
    exact (takesThrough_iff_events k (now + 3000) q (loop now irq s)).1 (he3 ▸ ht)
  · intro hi3
    have h3 : i.val = 3 := by rw [hi3]; rfl
    have hlt : 28000 < elapsedAt now s + 3000 := by omega
    refine ⟨hlt, fun d q hd hdw => ?_⟩
    have hlt2 : 28000 < elapsedAt (now + d) (loop now irq s) := by
      rw [hnext d hdw]
      omega
    refine ⟨(reset_iff_printed (now + d) q (loop now irq s)).2 hlt2,
      loop_currTime (now + d) q (loop now irq s), ?_⟩
    rw [loop_prevTime, if_pos hlt2, loop_currTime]
  · intro d q hd hlt
    have hed := hnext d hlt
    have hnc : ¬ takesCaution i (elapsedAt (now + d) (loop now irq s)) := by
      rw [hed]
      exact later _ (by omega)
    exact ⟨hed, hnc, fun hmem =>
      hnc ((takesCaution_iff_printed i (now + d) q (loop now irq s)).2 hmem)⟩

/-- C17, amended, on a wrapped timestamp: with `prevTime = 2 ^ 32 - 10000`, after a button
press the pass at timestamp 2500 has elapsed time 12500 and services the emergency in the
intermediate branch of approach 1; it holds for 3000 ms and a pass at 5500 is the call of
`sig3`. -/
theorem C17_after_grant_witness :
    takesCaution 1 (elapsedAt 2500 (button_ISR { initState with prevTime := 4294957296 })) ∧
      (button_ISR { initState with prevTime := 4294957296 }).flag = true ∧
      delays (emitted 2500 false (button_ISR { initState with prevTime := 4294957296 })) =
        [3000] ∧
      emitted (2500 + 3000) false
          (loop 2500 false (button_ISR { initState with prevTime := 4294957296 })) =
        sigEvents 2 :=
  ⟨by decide, rfl,
    (C17_after_grant 1 2500 false (button_ISR { initState with prevTime := 4294957296 })
      (by decide) rfl).1,
    ((C17_after_grant 1 2500 false (button_ISR { initState with prevTime := 4294957296 })
      (by decide) rfl).2.2.2.2.1 2 (by decide)).2.2.2 false⟩

end TrafficLight
